import Mathlib

/-!
Verification of the semantic-resolution pass implemented in
src/tools/pdl/src/lint.rs (the `Scope` / `PacketScope` linter of the
packet description language compiler).

The development shallowly embeds the Rust source: each Rust function is
translated into a Lean function over explicit state.  Rust `HashMap`s are
modelled as association lists whose `insert` replaces the value of an
existing key in place and returns the previous value, exactly like
`HashMap::insert`.  The iteration order of a Rust `HashMap` is
unspecified; the model fixes it to insertion order (a replaced key keeps
its original position).  Declaration identity (`&Decl` pointer identity
in the source) is modelled by the declaration's index in the input list.
-/

namespace Pdl

/-- A source location. The concrete shape is irrelevant to the pass; it is
only copied into diagnostic labels. -/
structure SourceRange where
  file : Nat
  startLoc : Nat
  stopLoc : Nat
  deriving DecidableEq, Repr

/-- Diagnostic severity, from `codespan_reporting`. -/
inductive Severity where
  | error
  | warning
  deriving DecidableEq, Repr

/-- Label style, from `codespan_reporting` (`primary()` / `secondary()`). -/
inductive LabelStyle where
  | primaryLabel
  | secondaryLabel
  deriving DecidableEq, Repr

/-- A source label attached to a diagnostic. -/
structure Label where
  style : LabelStyle
  loc : SourceRange
  message : String
  deriving DecidableEq, Repr

/-- A diagnostic, from `codespan_reporting`: severity, message, labels,
free-text notes. -/
structure Diagnostic where
  severity : Severity
  message : String
  labels : List Label
  notes : List String
  deriving DecidableEq, Repr

/-- A constraint declaration (`ast::Constraint`): binds a value to a named
field identifier. Only `id` and `loc` are read by lint.rs; the bound value
is opaque to the pass and modelled by `value`. -/
structure Constraint where
  id : String
  loc : SourceRange
  value : Nat
  deriving DecidableEq, Repr

/-- Field descriptors (`ast::FieldDesc`), restricted to the structure
lint.rs observes: `Group` and `Typedef` fields are inspected, `Payload`,
`Body`, `Size` and `Count` are matched by the lookup helpers, and the
remaining kinds are carried through unchanged. -/
inductive FieldDesc where
  | scalar (id : String) (width : Nat)
  | array (id : String) (typeId : String)
  | typedef (id : String) (typeId : String)
  | group (groupId : String) (constraints : List Constraint)
  | payload
  | body
  | size (fieldId : String)
  | count (fieldId : String)
  | checksumField (fieldId : String)
  | padding
  | reservedField
  deriving DecidableEq, Repr

/-- A field declaration: a source location and a descriptor. -/
structure Field where
  loc : SourceRange
  desc : FieldDesc
  deriving DecidableEq, Repr

/-- `Field::id()`: named fields are the typedef, scalar and array fields
(see the comment on `PacketScope.named` in lint.rs); the other field kinds
are anonymous. -/
def Field.id (f : Field) : Option String :=
  match f.desc with
  | .scalar i _ => some i
  | .array i _ => some i
  | .typedef i _ => some i
  | _ => none

/-- Declaration descriptors (`ast::DeclDesc`): `Packet` and `Struct` carry
an optional parent, constraints and fields; `Group` carries fields; the
remaining declarations are opaque to the resolver. -/
inductive DeclDesc where
  | packet (id : Option String) (parentId : Option String)
      (constraints : List Constraint) (fields : List Field)
  | struct (id : Option String) (parentId : Option String)
      (constraints : List Constraint) (fields : List Field)
  | group (id : Option String) (fields : List Field)
  | enum (id : Option String)
  | checksum (id : Option String)
  | customField (id : Option String)
  deriving DecidableEq, Repr

/-- A top-level declaration: source location and descriptor. -/
structure Decl where
  loc : SourceRange
  desc : DeclDesc
  deriving DecidableEq, Repr

instance : Inhabited Decl := ⟨⟨⟨0, 0, 0⟩, .enum none⟩⟩

/-- `Decl::id()`. -/
def Decl.id (d : Decl) : Option String :=
  match d.desc with
  | .packet i _ _ _ => i
  | .struct i _ _ _ => i
  | .group i _ => i
  | .enum i => i
  | .checksum i => i
  | .customField i => i

/-- `Decl::kind()`: the kind label used in diagnostic messages. -/
def Decl.kind (d : Decl) : String :=
  match d.desc with
  | .packet _ _ _ _ => "packet"
  | .struct _ _ _ _ => "struct"
  | .group _ _ => "group"
  | .enum _ => "enum"
  | .checksum _ => "checksum"
  | .customField _ => "custom field"

/-- `Decl::constraints()`: the constraint list of a packet or struct. -/
def Decl.constraints (d : Decl) : List Constraint :=
  match d.desc with
  | .packet _ _ cs _ => cs
  | .struct _ _ cs _ => cs
  | _ => []

/-- The destructuring performed at the top of `bfs`: a Packet or Struct
yields its parent identifier and fields, a Group yields its fields (with
no parent), and every other declaration yields nothing. -/
def declFields (d : Decl) : Option (Option String × List Field) :=
  match d.desc with
  | .packet _ p _ fs => some (p, fs)
  | .struct _ p _ fs => some (p, fs)
  | .group _ fs => some (none, fs)
  | _ => none

def isGroupDecl (d : Decl) : Bool :=
  match d.desc with
  | .group _ _ => true
  | _ => false

def isStructDecl (d : Decl) : Bool :=
  match d.desc with
  | .struct _ _ _ _ => true
  | _ => false

def isPacketDecl (d : Decl) : Bool :=
  match d.desc with
  | .packet _ _ _ _ => true
  | _ => false

/-- The kind-mismatch test of the parent match in `bfs`: a Packet whose
parent resolves to a Struct, or a Struct whose parent resolves to a
Packet. -/
def parentMismatch (d pd : Decl) : Bool :=
  (isPacketDecl d && isStructDecl pd) || (isStructDecl d && isPacketDecl pd)

/-- Association-list lookup, modelling `HashMap::get`. -/
def alookup [DecidableEq α] : List (α × β) → α → Option β
  | [], _ => none
  | (k', v) :: t, k => if k' = k then some v else alookup t k

/-- Association-list insertion, modelling `HashMap::insert`: replaces the
value of an existing key in place and returns the previous value; a new
key is appended (the model's stand-in for the unspecified hash order). -/
def ainsert [DecidableEq α] : List (α × β) → α → β → Option β × List (α × β)
  | [], k, v => (none, [(k, v)])
  | (k', v') :: t, k, v =>
    if k' = k then (some v', (k, v) :: t)
    else
      let r := ainsert t k v
      (r.1, (k', v') :: r.2)

/-- `HashMap::insert` used for its effect only. -/
def aupd [DecidableEq α] (l : List (α × β)) (k : α) (v : β) : List (α × β) :=
  (ainsert l k v).2

/-- `LintDiagnostics::err_redeclared`. -/
def errRedeclared (id kind : String) (loc prev : SourceRange) : Diagnostic :=
  ⟨.error, "redeclaration of " ++ kind ++ " identifier `" ++ id ++ "`",
    [⟨.primaryLabel, loc, ""⟩,
     ⟨.secondaryLabel, prev, "`" ++ id ++ "` is first declared here"⟩], []⟩

/-- The recursive-declaration error pushed by `bfs` on a Temporary mark. -/
def errRecursive (kind idStr : String) (loc : SourceRange) : Diagnostic :=
  ⟨.error, "recursive declaration of " ++ kind ++ " `" ++ idStr ++ "`",
    [⟨.primaryLabel, loc, ""⟩], []⟩

/-- The undeclared-group-identifier error of `bfs`. -/
def errUndeclaredGroup (gid : String) (loc : SourceRange) : Diagnostic :=
  ⟨.error, "undeclared group identifier `" ++ gid ++ "`",
    [⟨.primaryLabel, loc, ""⟩], []⟩

/-- The invalid-group-field-identifier error of `bfs`. -/
def errInvalidGroup (gid : String) (loc : SourceRange) : Diagnostic :=
  ⟨.error, "invalid group field identifier `" ++ gid ++ "`",
    [⟨.primaryLabel, loc, ""⟩], ["hint: expected group identifier"]⟩

/-- The undeclared-typedef-identifier error of `bfs`. -/
def errUndeclaredTypedef (tid : String) (loc : SourceRange) : Diagnostic :=
  ⟨.error, "undeclared typedef identifier `" ++ tid ++ "`",
    [⟨.primaryLabel, loc, ""⟩], []⟩

/-- The undeclared-parent-identifier error of `bfs`. -/
def errUndeclaredParent (pid : String) (loc : SourceRange) (kind : String) :
    Diagnostic :=
  ⟨.error, "undeclared parent identifier `" ++ pid ++ "`",
    [⟨.primaryLabel, loc, ""⟩], ["hint: expected " ++ kind ++ " parent"]⟩

/-- The invalid-parent-identifier error of `bfs`. -/
def errInvalidParent (pid : String) (loc : SourceRange) (kind : String) :
    Diagnostic :=
  ⟨.error, "invalid parent identifier `" ++ pid ++ "`",
    [⟨.primaryLabel, loc, ""⟩], ["hint: expected " ++ kind ++ " parent"]⟩

/-- `err_redeclared_by_group` inside `PacketScope::inline`. -/
def errGroupRedeclares (id : String) (gloc prevloc : SourceRange) : Diagnostic :=
  ⟨.error, "inserted group redeclares field `" ++ id ++ "`",
    [⟨.primaryLabel, gloc, ""⟩,
     ⟨.secondaryLabel, prevloc, "first declared here"⟩], []⟩

/-- The field-shadowing warning pushed by `PacketScope::finalize`. -/
def warnShadow (id : String) (floc prevloc : SourceRange) : Diagnostic :=
  ⟨.warning, "declaration of `" ++ id ++ "` shadows parent field",
    [⟨.primaryLabel, floc, ""⟩,
     ⟨.secondaryLabel, prevloc, "`" ++ id ++ "` is first declared here"⟩], []⟩

/-- `PacketScope`: the per-declaration scope. -/
structure PacketScope where
  named : List (String × Field)
  fields : List Field
  constraints : List (String × Constraint)
  all_fields : List (String × Field)
  all_constraints : List (String × Constraint)
  deriving DecidableEq, Repr

instance : Inhabited PacketScope := ⟨⟨[], [], [], [], []⟩⟩

/-- `PacketScope::insert`: records a named field; anonymous fields are
ignored; an existing entry under the same identifier is silently
replaced (`HashMap::insert`). -/
def PacketScope.insert (s : PacketScope) (f : Field) : PacketScope :=
  match f.id with
  | some i => { s with named := aupd s.named i f }
  | none => s

/-- `decl_scope`: the initial scope of a Packet, Struct, or Group
declaration, holding its local named fields; `None` otherwise. -/
def decl_scope (d : Decl) : Option PacketScope :=
  match declFields d with
  | some pf => some (pf.2.foldl PacketScope.insert default)
  | none => none

/-- `PacketScope::inherit`: copies the parent's `all_constraints`, overlays
the supplied constraints and then the group-absorbed `constraints`, and
copies the parent's `all_fields`.  The Boolean result models the
`assert!(self.all_constraints.is_empty())` on entry: `false` means the
assertion would have failed (a panic in the source). -/
def PacketScope.inherit (s parent : PacketScope) (cs : List Constraint) :
    PacketScope × Bool :=
  let ok := s.all_constraints.isEmpty
  let ac := cs.foldl (fun m c => aupd m c.id c) parent.all_constraints
  let ac := s.constraints.foldl (fun m kv => aupd m kv.1 kv.2) ac
  ({ s with all_constraints := ac, all_fields := parent.all_fields }, ok)

/-- `PacketScope::inline`: merges a resolved group scope into this scope.
Each collision of the group's named fields with an already-present named
field yields an `inserted group redeclares field` error (returned in
order); the group's flattened fields are appended to `fields`, its
constraints are absorbed, and the constraints attached to the group field
itself are overlaid last. -/
def PacketScope.inline (s packetScope : PacketScope) (grp : Field)
    (cs : List Constraint) : PacketScope × List Diagnostic :=
  let nm := packetScope.named.foldl
    (fun (acc : List (String × Field) × List Diagnostic) kv =>
      let r := ainsert acc.1 kv.1 kv.2
      match r.1 with
      | some prev => (r.2, acc.2 ++ [errGroupRedeclares kv.1 grp.loc prev.loc])
      | none => (r.2, acc.2))
    (s.named, [])
  let ctr := packetScope.constraints.foldl
    (fun m kv => aupd m kv.1 kv.2) s.constraints
  let ctr := cs.foldl (fun m c => aupd m c.id c) ctr
  ({ s with named := nm.1,
            fields := s.fields ++ packetScope.fields,
            constraints := ctr }, nm.2)

/-- One iteration of the field-shadowing loop of `PacketScope::finalize`. -/
def finalizeStep (acc : List (String × Field) × List Diagnostic) (f : Field) :
    List (String × Field) × List Diagnostic :=
  match f.id with
  | some i =>
    let r := ainsert acc.1 i f
    match r.1 with
    | some prev => (r.2, acc.2 ++ [warnShadow i f.loc prev.loc])
    | none => (r.2, acc.2)
  | none => acc

/-- `PacketScope::finalize`: walks the flattened `fields` in order,
inserting each named field into `all_fields`; a collision yields a
field-shadowing warning labelling the new and the previous site. -/
def PacketScope.finalize (s : PacketScope) : PacketScope × List Diagnostic :=
  let r := s.fields.foldl finalizeStep (s.all_fields, [])
  ({ s with all_fields := r.1 }, r.2)

/-- `Scope::get_packet_field`: lookup by name, falling back to the payload
or body field for the reserved names. -/
def PacketScope.get_packet_field (s : PacketScope) (id : String) :
    Option Field :=
  match alookup s.named id with
  | some f => some f
  | none =>
    if id = "_payload_" || id = "_body_" then
      s.fields.find? (fun f =>
        match f.desc with
        | .payload => true
        | .body => true
        | _ => false)
    else none

/-- The three-state visitation mark of the resolver (`Mark` in `finalize`):
absence from `visited` is the unvisited state. -/
inductive Mark where
  | temporary
  | permanent
  deriving DecidableEq, Repr

/-- The resolver state (`Context` in `Scope::finalize`, together with the
threaded `LintDiagnostics`): the topological output `list`, the visitation
marks, the finalized scopes, and the accumulated diagnostics.  `assertOk`
records that no `assert!` in `PacketScope::inherit` has failed,
`inheritCalls` records the declaration whose scope each `inherit` call was
made on, and `fuelOut` records whether the model's recursion fuel was ever
exhausted (the source recursion is unbounded; the fuel is an artefact of
the embedding, and `fuelOut = false` is proved for the fuel used). -/
structure Context where
  list : List Nat
  visited : List (Nat × Mark)
  scopes : List (Nat × PacketScope)
  diags : List Diagnostic
  assertOk : Bool
  inheritCalls : List Nat
  fuelOut : Bool
  deriving DecidableEq, Repr

/-- `LintDiagnostics::push`. -/
def Context.push (c : Context) (d : Diagnostic) : Context :=
  { c with diags := c.diags ++ [d] }

/-- The field loop of `bfs` (the `for f in fields` loop): processes each
field in order against the local scope, recursing through `bfsF` for group
fields that resolve to a Group and typedef fields that resolve to a
Struct. -/
def processFields (decls : List Decl) (td : List (String × Nat))
    (bfsF : Nat → Context → Option PacketScope × Context) :
    List Field → PacketScope → Context → PacketScope × Context
  | [], lscope, ctx => (lscope, ctx)
  | f :: fs, lscope, ctx =>
    match f.desc with
    | .group gid cs =>
      (match alookup td gid with
      | none =>
        processFields decls td bfsF fs lscope
          (ctx.push (errUndeclaredGroup gid f.loc))
      | some j =>
        if isGroupDecl (decls.getD j default) then
          let r := bfsF j ctx
          match r.1 with
          | some rscope =>
            let ir := PacketScope.inline lscope rscope f cs
            processFields decls td bfsF fs ir.1
              { r.2 with diags := r.2.diags ++ ir.2 }
          | none => processFields decls td bfsF fs lscope r.2
        else
          processFields decls td bfsF fs lscope
            (ctx.push (errInvalidGroup gid f.loc)))
    | .typedef _ tid =>
      let lscope' := { lscope with fields := lscope.fields ++ [f] }
      (match alookup td tid with
      | none =>
        processFields decls td bfsF fs lscope'
          (ctx.push (errUndeclaredTypedef tid f.loc))
      | some j =>
        if isStructDecl (decls.getD j default) then
          processFields decls td bfsF fs lscope' (bfsF j ctx).2
        else
          processFields decls td bfsF fs lscope' ctx)
    | _ =>
      processFields decls td bfsF fs
        { lscope with fields := lscope.fields ++ [f] } ctx

/-- The parent-resolution match of `bfs` (the `match (&decl.desc, parent)`
statement): reports an undeclared or kind-mismatched parent, otherwise
resolves the parent through `bfsF` and inherits from it. -/
def resolveParent (decls : List Decl) (td : List (String × Nat))
    (bfsF : Nat → Context → Option PacketScope × Context)
    (decl : Decl) (parentId : Option String) (lscope : PacketScope)
    (ctx : Context) (d : Nat) : PacketScope × Context :=
  match parentId with
  | none => (lscope, ctx)
  | some pid =>
    match alookup td pid with
    | none => (lscope, ctx.push (errUndeclaredParent pid decl.loc decl.kind))
    | some j =>
      if parentMismatch decl (decls.getD j default) then
        (lscope, ctx.push (errInvalidParent pid decl.loc decl.kind))
      else
        let rp := bfsF j ctx
        match rp.1 with
        | some rscope =>
          let ih := PacketScope.inherit lscope rscope decl.constraints
          let ctx' := { rp.2 with
                          assertOk := (rp.2.assertOk && ih.2)
                          inheritCalls := rp.2.inheritCalls ++ [d] }
          (ih.1, ctx')
        | none => (lscope, rp.2)

/-- One unfolding of `bfs`, parameterized by the recursive instance.
Mirrors the body of `fn bfs` in `Scope::finalize`: early return on a
Permanent or Temporary mark, destructuring of composite declarations,
Temporary-marking, the field loop, parent resolution, `finalize`, and the
Permanent-marking and caching of the finished scope. -/
def bfsStep (decls : List Decl) (td : List (String × Nat))
    (bfsF : Nat → Context → Option PacketScope × Context)
    (d : Nat) (ctx : Context) : Option PacketScope × Context :=
  match alookup ctx.visited d with
  | some .permanent => (alookup ctx.scopes d, ctx)
  | some .temporary =>
    let decl := decls.getD d default
    (none, ctx.push (errRecursive decl.kind (decl.id.getD "") decl.loc))
  | none =>
    let decl := decls.getD d default
    match declFields decl with
    | none => (none, ctx)
    | some pf =>
      let ctx1 := { ctx with visited := aupd ctx.visited d .temporary }
      let lscope0 := (decl_scope decl).getD default
      let r := processFields decls td bfsF pf.2 lscope0 ctx1
      let pr := resolveParent decls td bfsF decl pf.1 r.1 r.2 d
      let fr := PacketScope.finalize pr.1
      (some fr.1,
        { pr.2 with diags := pr.2.diags ++ fr.2,
                    list := pr.2.list ++ [d],
                    visited := aupd pr.2.visited d .permanent,
                    scopes := aupd pr.2.scopes d fr.1 })

/-- The fuelled recursive `bfs`.  The source recursion is unbounded; the
model indexes it by fuel via `Nat.rec` so that every definition stays
structurally computable, and proves separately that the fuel used by the
driver is never exhausted. -/
def bfs (decls : List Decl) (td : List (String × Nat)) (fuel : Nat) :
    Nat → Context → Option PacketScope × Context :=
  Nat.rec (fun _ ctx => (none, { ctx with fuelOut := true }))
    (fun _ ih => bfsStep decls td ih) fuel

theorem bfs_zero (decls : List Decl) (td : List (String × Nat)) :
    bfs decls td 0 = fun _ ctx => (none, { ctx with fuelOut := true }) := rfl

theorem bfs_succ (decls : List Decl) (td : List (String × Nat)) (fuel : Nat) :
    bfs decls td (fuel + 1) = bfsStep decls td (bfs decls td fuel) := rfl

/-- The initial resolver state, seeded with the diagnostics gathered while
building the registry. -/
def initCtx (ds : List Diagnostic) : Context :=
  ⟨[], [], [], ds, true, [], false⟩

/-- The driver loop of `Scope::finalize`: invokes `bfs` on every
declaration registered in `typedef`, in the model's fixed iteration
order.  The fuel `decls.length + 1` strictly dominates the recursion
depth (proved below), so the fuel cut-off is never reached. -/
def runFinalize (decls : List Decl) (td : List (String × Nat))
    (ctx0 : Context) : Context :=
  (td.map Prod.snd).foldl
    (fun ctx d => (bfs decls td (decls.length + 1) d ctx).2) ctx0

/-- The registry-building pass of `Scope::new`: iterates the top-level
declarations in source order, inserting each identified declaration into
the `typedef` namespace; `HashMap::insert` replaces an existing entry and
returns it, in which case a redeclaration error is emitted naming the new
declaration and the replaced one. -/
def buildTypedef (decls : List Decl) : List (String × Nat) × List Diagnostic :=
  decls.enum.foldl
    (fun (acc : List (String × Nat) × List Diagnostic) p =>
      match p.2.id with
      | some i =>
        let r := ainsert acc.1 i p.1
        match r.1 with
        | some prev =>
          (r.2, acc.2 ++ [errRedeclared i p.2.kind p.2.loc
            (decls.getD prev default).loc])
        | none => (r.2, acc.2)
      | none => acc)
    ([], [])

/-- A parsed file: the top-level declaration list in source order. -/
structure File where
  declarations : List Decl
  deriving DecidableEq, Repr

/-- The full run of `Scope::new` before the final emptiness test: registry
construction followed by `Scope::finalize`. -/
structure RunResult where
  typedef : List (String × Nat)
  ctx : Context
  deriving DecidableEq, Repr

def scopeRun (f : File) : RunResult :=
  let bt := buildTypedef f.declarations
  ⟨bt.1, runFinalize f.declarations bt.1 (initCtx bt.2)⟩

/-- The finalized value returned by a successful `Scope::new`: the
namespace map and the per-declaration scopes computed by the resolver
(the initial scopes built during registration are replaced wholesale by
`self.scopes = context.scopes`). -/
structure ScopeS where
  typedef : List (String × Nat)
  scopes : List (Nat × PacketScope)
  deriving DecidableEq, Repr

/-- `Scope::new`: returns the diagnostic list whenever it is non-empty
(warnings included), and the finalized scope otherwise. -/
def Scope.new (f : File) : Except (List Diagnostic) ScopeS :=
  let r := scopeRun f
  if r.ctx.diags = [] then .ok ⟨r.typedef, r.ctx.scopes⟩
  else .error r.ctx.diags

/-- The dependency edges the resolver follows out of declaration `i`:
group fields resolving to a Group, typedef fields resolving to a Struct,
and a parent identifier resolving to a composite declaration of
non-mismatched kind. -/
def declEdges (decls : List Decl) (td : List (String × Nat)) (i : Nat) :
    List Nat :=
  match declFields (decls.getD i default) with
  | none => []
  | some pf =>
    pf.2.filterMap (fun f =>
      match f.desc with
      | .group gid _ =>
        (match alookup td gid with
        | some j => if isGroupDecl (decls.getD j default) then some j else none
        | none => none)
      | .typedef _ tid =>
        (match alookup td tid with
        | some j => if isStructDecl (decls.getD j default) then some j else none
        | none => none)
      | _ => none)
    ++ (match pf.1 with
      | some pid =>
        (match alookup td pid with
        | some j =>
          if parentMismatch (decls.getD i default) (decls.getD j default) then []
          else if (declFields (decls.getD j default)).isSome then [j] else []
        | none => [])
      | none => [])

/-- One dependency step of the resolver's graph over a file. -/
def EdgeStep (f : File) (i j : Nat) : Prop :=
  j ∈ declEdges f.declarations (buildTypedef f.declarations).1 i

/-- The dependency graph of a file contains a cycle. -/
def HasCycle (f : File) : Prop :=
  ∃ i, Relation.TransGen (EdgeStep f) i i

/-- A recursive-declaration diagnostic: a diagnostic built by the
recursive-declaration error constructor (an error, message "recursive
declaration of ..."). -/
def IsRecursiveDiag (e : Diagnostic) : Prop :=
  ∃ k i l, e = errRecursive k i l

/-! ### Concrete inputs used by the closed theorems -/

/-- A concrete source location. -/
def exLoc (n : Nat) : SourceRange := ⟨0, n, n⟩

def exScalar (nm : String) (n : Nat) : Field := ⟨exLoc n, .scalar nm 8⟩

def exGroupRef (g : String) (n : Nat) : Field := ⟨exLoc n, .group g []⟩

/-- Three top-level packets all declared as `A`. -/
def fileRedecl3 : File :=
  ⟨[⟨exLoc 10, .packet (some "A") none [] []⟩,
    ⟨exLoc 20, .packet (some "A") none [] []⟩,
    ⟨exLoc 30, .packet (some "A") none [] []⟩]⟩

/-- `Group G { x }`, `Packet P { group G; y }`. -/
def fileScenarioGP : File :=
  ⟨[⟨exLoc 1, .group (some "G") [exScalar "x" 2]⟩,
    ⟨exLoc 3, .packet (some "P") none [] [exGroupRef "G" 4, exScalar "y" 5]⟩]⟩

/-- `Group G { x }`, `Packet P : G { y }` — a packet whose parent
identifier resolves to a Group declaration. -/
def fileGroupParent : File :=
  ⟨[⟨exLoc 1, .group (some "G") [exScalar "x" 2]⟩,
    ⟨exLoc 3, .packet (some "P") (some "G") [] [exScalar "y" 4]⟩]⟩

/-- `Packet P { x; x }` — two local fields sharing one identifier. -/
def fileDupLocal : File :=
  ⟨[⟨exLoc 1, .packet (some "P") none [] [exScalar "x" 2, exScalar "x" 3]⟩]⟩

/-- The duplicated packet declaration of `fileDupLocal`. -/
def declDupLocal : Decl :=
  ⟨exLoc 1, .packet (some "P") none [] [exScalar "x" 2, exScalar "x" 3]⟩

/-- `Packet A { x }`, `Packet B : A { x }` — a local field shadowing an
inherited one. -/
def fileShadow : File :=
  ⟨[⟨exLoc 1, .packet (some "A") none [] [exScalar "x" 2]⟩,
    ⟨exLoc 3, .packet (some "B") (some "A") [] [exScalar "x" 4]⟩]⟩

/-- `Packet A : B {}`, `Packet B : A {}` — a cyclic parent chain. -/
def fileCycleAB : File :=
  ⟨[⟨exLoc 1, .packet (some "A") (some "B") [] []⟩,
    ⟨exLoc 2, .packet (some "B") (some "A") [] []⟩]⟩

/-- `Struct S {}`, `Packet P { group Missing; group S }` — one group
reference to an undeclared identifier and one to a non-Group. -/
def fileGroupErrs : File :=
  ⟨[⟨exLoc 1, .struct (some "S") none [] []⟩,
    ⟨exLoc 2, .packet (some "P") none [] [exGroupRef "Missing" 3, exGroupRef "S" 4]⟩]⟩

/-! ### C1: registry redeclaration -/

/-- C1 (code divergence): on an input declaring `A` three times, registry
construction emits exactly one redeclaration diagnostic per extra
occurrence, but the declaration retained in `typedef` under `A` is the
*last* occurrence (index 2), not the first: `HashMap::insert` replaces the
existing entry.  The second diagnostic's "first declared here" label even
points at the second occurrence (location 20), not the first (location
10). -/
theorem claim_C1_registry_keeps_last_occurrence :
    (buildTypedef fileRedecl3.declarations).2 =
      [errRedeclared "A" "packet" (exLoc 20) (exLoc 10),
       errRedeclared "A" "packet" (exLoc 30) (exLoc 20)] ∧
    alookup (buildTypedef fileRedecl3.declarations).1 "A" = some 2 := by
  constructor <;> rfl

/-! ### C2: all-or-nothing construction -/

/-- C2: `Scope::new` is all-or-nothing: for every input it returns the
error variant carrying the full accumulated diagnostic list exactly when
that list is non-empty (warnings included — witnessed by `fileShadow`,
whose only diagnostic is a warning and which still fails), and the
finalized scope exactly when the list is empty. -/
theorem claim_C2_all_or_nothing :
    (∀ f : File,
      (Scope.new f = .ok ⟨(scopeRun f).typedef, (scopeRun f).ctx.scopes⟩ ∧
        (scopeRun f).ctx.diags = []) ∨
      (Scope.new f = .error (scopeRun f).ctx.diags ∧
        (scopeRun f).ctx.diags ≠ [])) ∧
    (Scope.new fileShadow =
        .error [warnShadow "x" (exLoc 4) (exLoc 2)] ∧
      (warnShadow "x" (exLoc 4) (exLoc 2)).severity = .warning) := by
  constructor
  · intro f
    by_cases h : (scopeRun f).ctx.diags = []
    · left
      refine ⟨?_, h⟩
      simp [Scope.new, h]
    · right
      refine ⟨?_, h⟩
      simp [Scope.new, h]
  · constructor <;> rfl

/-! ### C5: parent kind mismatch -/

/-- C5 (counterexample): for `Packet P : G` with `G` a Group — a parent
that is found in the registry and is of mismatched composite kind —
`Scope::new` succeeds with no diagnostic at all (so no "invalid parent
identifier" error is emitted), and inheritance from the Group does take
place: `P`'s finalized scope contains the inherited field `x` in
`all_fields`. -/
theorem claim_C5_counterexample :
    (∃ s, Scope.new fileGroupParent = .ok s ∧
      (∃ ps, alookup s.scopes 1 = some ps ∧
        alookup ps.all_fields "x" = some (exScalar "x" 2))) ∧
    (scopeRun fileGroupParent).ctx.diags = [] := by
  refine ⟨⟨⟨(scopeRun fileGroupParent).typedef,
    (scopeRun fileGroupParent).ctx.scopes⟩, ?_, ?_⟩, ?_⟩
  · rfl
  · exact ⟨(alookup (scopeRun fileGroupParent).ctx.scopes 1).getD default,
      by constructor <;> rfl⟩
  · rfl

/-! ### C6: local duplicate named fields -/

/-- C6 (counterexample): for `Packet P { x@2; x@3 }`, the named-field map
of the initial scope retains the *second* field (last-writer-wins, not
first-writer-wins), and running `Scope::new` on the file does emit a
diagnostic for the duplication (the finalize shadow warning), so the
duplication is not diagnostic-free. -/
theorem claim_C6_counterexample :
    (∃ s, decl_scope declDupLocal = some s ∧
      alookup s.named "x" = some (exScalar "x" 3) ∧
      exScalar "x" 3 ≠ exScalar "x" 2) ∧
    (scopeRun fileDupLocal).ctx.diags = [warnShadow "x" (exLoc 3) (exLoc 2)] ∧
    (scopeRun fileDupLocal).ctx.diags ≠ [] := by
  refine ⟨⟨(decl_scope declDupLocal).getD default, rfl, rfl, by decide⟩, rfl, by decide⟩

/-! ### Association-list lemmas -/

theorem ainsert_fst [DecidableEq α] (l : List (α × β)) (k : α) (v : β) :
    (ainsert l k v).1 = alookup l k := by
  induction l with
  | nil => rfl
  | cons h t ih =>
    simp only [ainsert, alookup]
    by_cases hk : h.1 = k
    · simp [hk]
    · simp [hk, ih]

theorem alookup_aupd [DecidableEq α] (l : List (α × β)) (k k' : α) (v : β) :
    alookup (aupd l k v) k' = if k = k' then some v else alookup l k' := by
  induction l with
  | nil => by_cases hk : k = k' <;> simp [aupd, ainsert, alookup, hk]
  | cons h t ih =>
    by_cases hk : h.1 = k
    · subst hk
      have he : aupd (h :: t) h.1 v = (h.1, v) :: t := by
        simp [aupd, ainsert]
      rw [he]
      by_cases hk2 : h.1 = k'
      · simp [alookup, hk2]
      · simp [alookup, hk2]
    · have he : aupd (h :: t) k v = h :: aupd t k v := by
        simp [aupd, ainsert, hk]
      rw [he]
      by_cases hk2 : h.1 = k'
      · have hkk : ¬ k = k' := fun hq => hk (hk2.trans hq.symm)
        simp [alookup, hk2, hkk]
      · simp [alookup, hk2, ih]

theorem alookup_none_iff [DecidableEq α] (l : List (α × β)) (k : α) :
    alookup l k = none ↔ k ∉ l.map Prod.fst := by
  induction l with
  | nil => simp [alookup]
  | cons h t ih =>
    by_cases hk : h.1 = k
    · simp [alookup, hk]
    · simp [alookup, hk, ih, Ne.symm hk]

theorem aupd_keys_of_mem [DecidableEq α] (l : List (α × β)) (k : α) (v : β)
    (h : k ∈ l.map Prod.fst) :
    (aupd l k v).map Prod.fst = l.map Prod.fst := by
  induction l with
  | nil => simp at h
  | cons hd t ih =>
    by_cases hk : hd.1 = k
    · have he : aupd (hd :: t) k v = (k, v) :: t := by
        simp [aupd, ainsert, hk]
      rw [he]
      simp [hk]
    · have he : aupd (hd :: t) k v = hd :: aupd t k v := by
        simp [aupd, ainsert, hk]
      rw [he]
      simp only [List.map_cons, List.mem_cons] at h
      rcases h with h | h
      · exact absurd h.symm hk
      · simp [ih h]

theorem aupd_keys_of_not_mem [DecidableEq α] (l : List (α × β)) (k : α) (v : β)
    (h : k ∉ l.map Prod.fst) :
    (aupd l k v).map Prod.fst = l.map Prod.fst ++ [k] := by
  induction l with
  | nil => simp [aupd, ainsert]
  | cons hd t ih =>
    simp only [List.map_cons, List.mem_cons] at h
    push_neg at h
    have hne : ¬ hd.1 = k := fun hq => h.1 hq.symm
    have he : aupd (hd :: t) k v = hd :: aupd t k v := by
      simp [aupd, ainsert, hne]
    rw [he]
    simp [ih h.2]

/-- `Struct S { x }`, `Packet Q : S {}` — a packet whose parent identifier
resolves to a Struct (the mismatched case the code does report). -/
def fileMismatch : File :=
  ⟨[⟨exLoc 1, .struct (some "S") none [] [exScalar "x" 2]⟩,
    ⟨exLoc 3, .packet (some "Q") (some "S") [] []⟩]⟩

/-! ### C5 (amended): parent kind mismatch -/

/-- C5 (amended): the "invalid parent identifier" error, with the hint
note naming the expected parent kind, is emitted precisely when
`parentMismatch` holds — a Packet whose found parent is a Struct or a
Struct whose found parent is a Packet — and in that case the local scope
is returned unchanged (no inheritance).  A parent resolving to a Group is
accepted silently and inherited from: on `fileGroupParent` no diagnostic
is emitted and `P`'s scope inherits `x`. -/
theorem claim_C5_amended :
    (∀ (decls : List Decl) (td : List (String × Nat)) bfsF (decl : Decl)
        (pid : String) (lscope : PacketScope) (ctx : Context) (d j : Nat),
      alookup td pid = some j →
      parentMismatch decl (decls.getD j default) = true →
      resolveParent decls td bfsF decl (some pid) lscope ctx d =
        (lscope, ctx.push (errInvalidParent pid decl.loc decl.kind))) ∧
    (∀ d pd : Decl, parentMismatch d pd = true ↔
      ((isPacketDecl d = true ∧ isStructDecl pd = true) ∨
       (isStructDecl d = true ∧ isPacketDecl pd = true))) ∧
    ((scopeRun fileMismatch).ctx.diags =
        [errInvalidParent "S" (exLoc 3) "packet"] ∧
      (errInvalidParent "S" (exLoc 3) "packet").notes =
        ["hint: expected packet parent"] ∧
      (∃ qs, alookup (scopeRun fileMismatch).ctx.scopes 1 = some qs ∧
        qs.all_fields = [])) ∧
    ((scopeRun fileGroupParent).ctx.diags = [] ∧
      (∃ ps, alookup (scopeRun fileGroupParent).ctx.scopes 1 = some ps ∧
        alookup ps.all_fields "x" = some (exScalar "x" 2))) := by
  refine ⟨?_, ?_, ⟨rfl, rfl, ?_⟩, ⟨rfl, ?_⟩⟩
  · intro decls td bfsF decl pid lscope ctx d j hl hm
    have hm' : parentMismatch decl (decls[j]?.getD default) = true := by
      simpa [List.getD] using hm
    simp [resolveParent, hl, hm']
  · intro d pd
    simp [parentMismatch]
  · exact ⟨(alookup (scopeRun fileMismatch).ctx.scopes 1).getD default,
      by constructor <;> rfl⟩
  · exact ⟨(alookup (scopeRun fileGroupParent).ctx.scopes 1).getD default,
      by constructor <;> rfl⟩

/-- Witness for the hypotheses of `claim_C5_amended`: its first conjunct
applied at concrete arguments. -/
theorem claim_C5_amended_witness :
    resolveParent [⟨exLoc 1, .struct (some "S") none [] []⟩] [("S", 0)]
        (fun _ ctx => (none, ctx))
        ⟨exLoc 3, .packet (some "Q") (some "S") [] []⟩ (some "S")
        default (initCtx []) 1 =
      (default, (initCtx []).push (errInvalidParent "S" (exLoc 3) "packet")) :=
  claim_C5_amended.1 _ _ _ _ _ _ _ _ 0 rfl rfl

/-! ### C8: group reference errors -/

/-- C8: a group field whose identifier is not in the registry produces
exactly the one "undeclared group identifier" error and leaves the scope
untouched (nothing inlined); one resolving to a non-Group declaration
produces exactly the one "invalid group field identifier" error with its
hint note, again leaving the scope untouched.  End to end, `fileGroupErrs`
(`Struct S {}`, `Packet P { group Missing; group S }`) yields exactly
these two diagnostics and an empty flattened scope for `P`. -/
theorem claim_C8_group_reference_errors :
    (∀ (decls : List Decl) (td : List (String × Nat)) bfsF (f : Field)
        (gid : String) (cs : List Constraint) (lscope : PacketScope)
        (ctx : Context),
      f.desc = .group gid cs →
      alookup td gid = none →
      processFields decls td bfsF [f] lscope ctx =
        (lscope, ctx.push (errUndeclaredGroup gid f.loc))) ∧
    (∀ (decls : List Decl) (td : List (String × Nat)) bfsF (f : Field)
        (gid : String) (cs : List Constraint) (lscope : PacketScope)
        (ctx : Context) (j : Nat),
      f.desc = .group gid cs →
      alookup td gid = some j →
      isGroupDecl (decls.getD j default) = false →
      processFields decls td bfsF [f] lscope ctx =
        (lscope, ctx.push (errInvalidGroup gid f.loc))) ∧
    ((scopeRun fileGroupErrs).ctx.diags =
        [errUndeclaredGroup "Missing" (exLoc 3), errInvalidGroup "S" (exLoc 4)] ∧
      (errInvalidGroup "S" (exLoc 4)).notes = ["hint: expected group identifier"] ∧
      (∃ ps, alookup (scopeRun fileGroupErrs).ctx.scopes 1 = some ps ∧
        ps.fields = [] ∧ ps.named = [])) := by
  refine ⟨?_, ?_, rfl, rfl, ?_⟩
  · intro decls td bfsF f gid cs lscope ctx hd hl
    obtain ⟨loc, desc⟩ := f
    simp only [Field.loc] at hd ⊢
    cases hd
    simp [processFields, hl]
  · intro decls td bfsF f gid cs lscope ctx j hd hl hg
    have hg' : isGroupDecl (decls[j]?.getD default) = false := by
      simpa [List.getD] using hg
    obtain ⟨loc, desc⟩ := f
    simp only [Field.loc] at hd ⊢
    cases hd
    simp [processFields, hl, hg']
  · exact ⟨(alookup (scopeRun fileGroupErrs).ctx.scopes 1).getD default,
      by refine ⟨?_, ?_, ?_⟩ <;> rfl⟩

/-- Witness for the hypotheses of `claim_C8_group_reference_errors`: both
general conjuncts applied at concrete arguments. -/
theorem claim_C8_group_reference_errors_witness :
    (processFields [] [] (fun _ ctx => (none, ctx))
        [⟨exLoc 3, .group "Missing" []⟩] default (initCtx []) =
      (default, (initCtx []).push (errUndeclaredGroup "Missing" (exLoc 3)))) ∧
    (processFields [⟨exLoc 1, .struct (some "S") none [] []⟩] [("S", 0)]
        (fun _ ctx => (none, ctx))
        [⟨exLoc 4, .group "S" []⟩] default (initCtx []) =
      (default, (initCtx []).push (errInvalidGroup "S" (exLoc 4)))) :=
  ⟨claim_C8_group_reference_errors.1 _ _ _ _ _ [] _ _ rfl rfl,
   claim_C8_group_reference_errors.2.1 _ _ _ _ _ [] _ _ 0 rfl rfl rfl⟩

/-! ### String helpers -/

theorem string_affix_inj (p s x y : String) (h : p ++ x ++ s = p ++ y ++ s) :
    x = y := by
  have hd : (p ++ x ++ s).data = (p ++ y ++ s).data := by rw [h]
  simp only [String.data_append] at hd
  exact String.ext (List.append_cancel_left (List.append_cancel_right hd))

/-- Distinct identifiers give distinct shadow-warning messages. -/
theorem warnShadow_message_inj {i j : String} {l1 l2 l3 l4 : SourceRange}
    (h : (warnShadow i l1 l2).message = (warnShadow j l3 l4).message) :
    i = j :=
  string_affix_inj "declaration of `" "` shadows parent field" i j h

/-! ### C6 (amended): last-writer-wins named-field insertion -/

/-- The named-field map built by folding `PacketScope::insert` answers
lookups with the syntactically last field carrying the identifier. -/
theorem named_foldl_insert (fs : List Field) (s0 : PacketScope) (i : String) :
    alookup (fs.foldl PacketScope.insert s0).named i =
      (fs.reverse.find? (fun f => decide (f.id = some i))).or
        (alookup s0.named i) := by
  induction fs generalizing s0 with
  | nil => simp
  | cons f fs ih =>
    simp only [List.foldl_cons, List.reverse_cons, List.find?_append, ih]
    cases hf : fs.reverse.find? (fun f => decide (f.id = some i)) with
    | some g => simp [Option.or]
    | none =>
      simp only [Option.or_none, Option.none_or]
      cases hid : f.id with
      | none =>
        have : PacketScope.insert s0 f = s0 := by
          simp [PacketScope.insert, hid]
        simp [this, List.find?, hid]
      | some j =>
        have hupd : (PacketScope.insert s0 f).named = aupd s0.named j f := by
          simp [PacketScope.insert, hid]
        by_cases hji : j = i
        · subst hji
          simp [hupd, alookup_aupd, List.find?, hid]
        · simp [hupd, alookup_aupd, hji, List.find?, hid]

/-- C6 (amended): two local fields sharing an identifier are merged into
the named-field map by silent overwrite with last-writer-wins semantics —
the lookup answers with the last occurrence — and `decl_scope` builds the
initial scope exactly this way; no diagnostic is produced at insertion
time (the `insert` step has no diagnostic output at all), but the full run
on `Packet P { x@2; x@3 }` emits the later finalize shadow warning for the
duplication. -/
theorem claim_C6_amended :
    (∀ (fs : List Field) (i : String),
      alookup ((fs.foldl PacketScope.insert (default : PacketScope))).named i =
        fs.reverse.find? (fun f => decide (f.id = some i))) ∧
    (∀ (loc : SourceRange) (oid p : Option String) (cs : List Constraint)
        (fs : List Field),
      decl_scope ⟨loc, .packet oid p cs fs⟩ =
        some (fs.foldl PacketScope.insert (default : PacketScope))) ∧
    (alookup ((decl_scope declDupLocal).getD default).named "x" =
      some (exScalar "x" 3)) ∧
    ((scopeRun fileDupLocal).ctx.diags =
      [warnShadow "x" (exLoc 3) (exLoc 2)]) := by
  refine ⟨?_, ?_, rfl, rfl⟩
  · intro fs i
    rw [named_foldl_insert]
    simp [alookup]
  · intro loc oid p cs fs
    rfl

/-! ### C7: shadow warnings in finalize -/

/-- The message of a shadow warning for identifier `i`. -/
def shadowMsg (i : String) : String :=
  "declaration of `" ++ i ++ "` shadows parent field"

theorem warnShadow_message (i : String) (l1 l2 : SourceRange) :
    (warnShadow i l1 l2).message = shadowMsg i := rfl

theorem shadowMsg_inj {i j : String} (h : shadowMsg i = shadowMsg j) : i = j :=
  string_affix_inj "declaration of `" "` shadows parent field" i j h

/-- Every diagnostic added by the finalize fold is a (shadow) warning. -/
theorem finalizeFold_warnings (fs : List Field)
    (acc : List (String × Field) × List Diagnostic) (d : Diagnostic)
    (hd : d ∈ (fs.foldl finalizeStep acc).2) :
    d ∈ acc.2 ∨ d.severity = .warning := by
  induction fs generalizing acc with
  | nil => exact Or.inl hd
  | cons f fs ih =>
    rcases ih (finalizeStep acc f) (by simpa using hd) with h | h
    · cases hid : f.id with
      | none =>
        simp only [finalizeStep, hid] at h
        exact Or.inl h
      | some i =>
        cases hprev : (ainsert acc.1 i f).1 with
        | none =>
          simp only [finalizeStep, hid, hprev] at h
          exact Or.inl h
        | some prev =>
          simp only [finalizeStep, hid, hprev, List.mem_append,
            List.mem_singleton] at h
          rcases h with h | h
          · exact Or.inl h
          · subst h
            exact Or.inr rfl
    · exact Or.inr h

/-- A field-list with no field named `i` adds no diagnostic carrying the
shadow message for `i`. -/
theorem finalizeFold_no_match (i : String) (fs : List Field)
    (acc : List (String × Field) × List Diagnostic)
    (hf : fs.filter (fun f => decide (f.id = some i)) = []) :
    ((fs.foldl finalizeStep acc).2).filter
        (fun d => decide (d.message = shadowMsg i)) =
      acc.2.filter (fun d => decide (d.message = shadowMsg i)) := by
  induction fs generalizing acc with
  | nil => rfl
  | cons f fs ih =>
    simp only [List.filter_cons] at hf
    by_cases hp : f.id = some i
    · simp [hp] at hf
    · simp only [decide_eq_true_eq, if_neg hp] at hf
      rw [List.foldl_cons, ih (finalizeStep acc f) hf]
      cases hid : f.id with
      | none => simp [finalizeStep, hid]
      | some j =>
        cases hprev : (ainsert acc.1 j f).1 with
        | none => simp [finalizeStep, hid, hprev]
        | some prev =>
          have hji : ¬ j = i := fun he => hp (by rw [hid, he])
          simp only [finalizeStep, hid, hprev, List.filter_append]
          have : (warnShadow j f.loc prev.loc).message ≠ shadowMsg i := by
            rw [warnShadow_message]
            exact fun he => hji (shadowMsg_inj he)
          simp [this]

/-- The exact-one-shadow-warning lemma for the finalize fold: if `i` names
exactly one field `fld` of the walked list and the map already holds `g`
under `i`, the fold's diagnostics carrying the shadow message for `i` are
exactly the one warning labelling `fld` (primary) and `g` (secondary). -/
theorem finalizeFold_one_shadow (i : String) (fs : List Field) (fld g : Field)
    (acc : List (String × Field) × List Diagnostic)
    (hf : fs.filter (fun f => decide (f.id = some i)) = [fld])
    (hm : alookup acc.1 i = some g)
    (hds : acc.2.filter (fun d => decide (d.message = shadowMsg i)) = []) :
    ((fs.foldl finalizeStep acc).2).filter
        (fun d => decide (d.message = shadowMsg i)) =
      [warnShadow i fld.loc g.loc] := by
  induction fs generalizing acc with
  | nil => simp at hf
  | cons f fs ih =>
    simp only [List.filter_cons] at hf
    by_cases hp : f.id = some i
    · simp only [decide_eq_true_eq, if_pos hp, List.cons.injEq] at hf
      obtain ⟨hffld, hrest⟩ := hf
      subst hffld
      have hprev : (ainsert acc.1 i f).1 = some g := by
        rw [ainsert_fst]; exact hm
      rw [List.foldl_cons]
      have hstep : finalizeStep acc f =
          ((ainsert acc.1 i f).2, acc.2 ++ [warnShadow i f.loc g.loc]) := by
        simp [finalizeStep, hp, hprev]
      rw [hstep, finalizeFold_no_match i fs _ hrest]
      simp [List.filter_append, hds, warnShadow_message]
    · simp only [decide_eq_true_eq, if_neg hp] at hf
      rw [List.foldl_cons]
      refine ih (finalizeStep acc f) hf ?_ ?_
      · cases hid : f.id with
        | none => simpa [finalizeStep, hid] using hm
        | some j =>
          have hji : ¬ j = i := fun he => hp (by rw [hid, he])
          cases hprev : (ainsert acc.1 j f).1 with
          | none =>
            simp only [finalizeStep, hid, hprev]
            rw [show (ainsert acc.1 j f).2 = aupd acc.1 j f from rfl,
              alookup_aupd, if_neg hji]
            exact hm
          | some prev =>
            simp only [finalizeStep, hid, hprev]
            rw [show (ainsert acc.1 j f).2 = aupd acc.1 j f from rfl,
              alookup_aupd, if_neg hji]
            exact hm
      · cases hid : f.id with
        | none => simpa [finalizeStep, hid] using hds
        | some j =>
          have hji : ¬ j = i := fun he => hp (by rw [hid, he])
          cases hprev : (ainsert acc.1 j f).1 with
          | none => simpa [finalizeStep, hid, hprev] using hds
          | some prev =>
            have : (warnShadow j f.loc prev.loc).message ≠ shadowMsg i := by
              rw [warnShadow_message]
              exact fun he => hji (shadowMsg_inj he)
            simp only [finalizeStep, hid, hprev, List.filter_append]
            simp [hds, this]

/-- C7: a named field declared locally under an identifier already present
in the inherited `all_fields` makes `finalize` emit exactly one shadow
diagnostic for that identifier — of warning severity (every diagnostic
`finalize` emits is a warning, never an error) — whose labels are the
shadowing field's location (primary) and the previously declared field's
location (secondary).  End to end, `Packet A { x@2 }`, `Packet B : A
{ x@4 }` produces exactly that one warning. -/
theorem claim_C7_shadow_warning :
    (∀ (s : PacketScope) (i : String) (fld g : Field),
      s.fields.filter (fun f => decide (f.id = some i)) = [fld] →
      alookup s.all_fields i = some g →
      ((PacketScope.finalize s).2.filter
          (fun d => decide (d.message = shadowMsg i)) =
        [warnShadow i fld.loc g.loc]) ∧
      (∀ d ∈ (PacketScope.finalize s).2, d.severity = .warning)) ∧
    ((scopeRun fileShadow).ctx.diags = [warnShadow "x" (exLoc 4) (exLoc 2)] ∧
      (warnShadow "x" (exLoc 4) (exLoc 2)).severity = .warning ∧
      (warnShadow "x" (exLoc 4) (exLoc 2)).labels =
        [⟨.primaryLabel, exLoc 4, ""⟩,
         ⟨.secondaryLabel, exLoc 2, "`x` is first declared here"⟩]) := by
  refine ⟨?_, rfl, rfl, rfl⟩
  intro s i fld g hf hm
  constructor
  · exact finalizeFold_one_shadow i s.fields fld g (s.all_fields, []) hf hm rfl
  · intro d hd
    rcases finalizeFold_warnings s.fields (s.all_fields, []) d hd with h | h
    · simp at h
    · exact h

/-- Witness for the hypotheses of `claim_C7_shadow_warning`: its general
conjunct applied at a concrete scope with one local `x` and an inherited
`x`. -/
theorem claim_C7_shadow_warning_witness :
    ((PacketScope.finalize
        ⟨[], [exScalar "x" 4], [], [("x", exScalar "x" 2)], []⟩).2.filter
        (fun d => decide (d.message = shadowMsg "x")) =
      [warnShadow "x" (exLoc 4) (exLoc 2)]) ∧
    (∀ d ∈ (PacketScope.finalize
        ⟨[], [exScalar "x" 4], [], [("x", exScalar "x" 2)], []⟩).2,
      d.severity = .warning) :=
  claim_C7_shadow_warning.1
    ⟨[], [exScalar "x" 4], [], [("x", exScalar "x" 2)], []⟩
    "x" (exScalar "x" 4) (exScalar "x" 2) (by rfl) (by rfl)

/-! ### Case equations for `bfsStep` -/

theorem bfsStep_permanent (decls : List Decl) (td : List (String × Nat))
    (rec : Nat → Context → Option PacketScope × Context) (d : Nat)
    (ctx : Context) (hvis : alookup ctx.visited d = some .permanent) :
    bfsStep decls td rec d ctx = (alookup ctx.scopes d, ctx) := by
  unfold bfsStep
  split <;> simp_all

theorem bfsStep_temporary (decls : List Decl) (td : List (String × Nat))
    (rec : Nat → Context → Option PacketScope × Context) (d : Nat)
    (ctx : Context) (hvis : alookup ctx.visited d = some .temporary) :
    bfsStep decls td rec d ctx =
      (none, ctx.push (errRecursive (decls.getD d default).kind
        ((decls.getD d default).id.getD "") (decls.getD d default).loc)) := by
  unfold bfsStep
  split <;> simp_all

theorem bfsStep_noncomposite (decls : List Decl) (td : List (String × Nat))
    (rec : Nat → Context → Option PacketScope × Context) (d : Nat)
    (ctx : Context) (hvis : alookup ctx.visited d = none)
    (hdf : declFields (decls.getD d default) = none) :
    bfsStep decls td rec d ctx = (none, ctx) := by
  unfold bfsStep
  split <;> simp_all

theorem bfsStep_body (decls : List Decl) (td : List (String × Nat))
    (rec : Nat → Context → Option PacketScope × Context) (d : Nat)
    (ctx : Context) (pid : Option String) (fs : List Field)
    (hvis : alookup ctx.visited d = none)
    (hdf : declFields (decls.getD d default) = some (pid, fs)) :
    bfsStep decls td rec d ctx =
      (let ctx1 := { ctx with visited := aupd ctx.visited d .temporary }
       let r := processFields decls td rec fs
         ((decl_scope (decls.getD d default)).getD default) ctx1
       let pr := resolveParent decls td rec (decls.getD d default) pid r.1 r.2 d
       let fr := PacketScope.finalize pr.1
       let ctx2 := { pr.2 with
                       diags := pr.2.diags ++ fr.2
                       list := pr.2.list ++ [d]
                       visited := aupd pr.2.visited d .permanent
                       scopes := aupd pr.2.scopes d fr.1 }
       (some fr.1, ctx2)) := by
  unfold bfsStep
  split <;> simp_all

/-! ### C9: group inlining and field order -/

/-- A field handled by the catch-all arm of the field loop: neither a
group reference nor a typedef reference. -/
def isPlainField (f : Field) : Bool :=
  match f.desc with
  | .group _ _ => false
  | .typedef _ _ => false
  | _ => true

/-- Specification-side flattening (from the spec's words): substitute each
group field referencing `gid` by the sequence `sub`, keeping every other
field in place. -/
def flattenGroupInto (gid : String) (sub : List Field) : List Field → List Field
  | [] => []
  | f :: fs =>
    (match f.desc with
     | .group g _ => if g = gid then sub else [f]
     | _ => [f]) ++ flattenGroupInto gid sub fs

theorem flattenGroupInto_append (gid : String) (sub xs ys : List Field) :
    flattenGroupInto gid sub (xs ++ ys) =
      flattenGroupInto gid sub xs ++ flattenGroupInto gid sub ys := by
  induction xs with
  | nil => rfl
  | cons f fs ih => simp [flattenGroupInto, ih]

theorem flattenGroupInto_plain (gid : String) (sub : List Field)
    (fs : List Field) (h : ∀ f ∈ fs, isPlainField f = true) :
    flattenGroupInto gid sub fs = fs := by
  induction fs with
  | nil => rfl
  | cons f fs ih =>
    have hf := h f (List.mem_cons_self f fs)
    have ht := ih (fun g hg => h g (List.mem_cons_of_mem f hg))
    obtain ⟨floc, fdesc⟩ := f
    cases fdesc <;> simp_all [flattenGroupInto, isPlainField]

/-- `PacketScope::insert` touches only the named-field map. -/
theorem foldl_insert_fields (fs : List Field) (s : PacketScope) :
    (fs.foldl PacketScope.insert s).fields = s.fields := by
  induction fs generalizing s with
  | nil => rfl
  | cons f fs ih =>
    rw [List.foldl_cons, ih]
    cases hid : f.id <;> simp [PacketScope.insert, hid]

theorem finalize_fields (s : PacketScope) :
    (PacketScope.finalize s).1.fields = s.fields := rfl

theorem inline_fields (s ps : PacketScope) (grp : Field)
    (cs : List Constraint) :
    (PacketScope.inline s ps grp cs).1.fields = s.fields ++ ps.fields := rfl

/-- The field loop distributes over list append. -/
theorem processFields_append (decls : List Decl) (td : List (String × Nat))
    (bfsF : Nat → Context → Option PacketScope × Context)
    (xs ys : List Field) (l : PacketScope) (c : Context) :
    processFields decls td bfsF (xs ++ ys) l c =
      processFields decls td bfsF ys
        (processFields decls td bfsF xs l c).1
        (processFields decls td bfsF xs l c).2 := by
  induction xs generalizing l c with
  | nil => rfl
  | cons f fs ih =>
    obtain ⟨floc, fdesc⟩ := f
    cases fdesc with
    | group gid cs =>
      simp only [List.cons_append, processFields]
      cases alookup td gid with
      | none => exact ih _ _
      | some j =>
        by_cases hg : isGroupDecl (decls.getD j default) = true
        · simp only [hg, if_true]
          cases (bfsF j c).1 with
          | some rscope => exact ih _ _
          | none => exact ih _ _
        · simp only [eq_false_of_ne_true hg, if_false]
          exact ih _ _
    | typedef fid tid =>
      simp only [List.cons_append, processFields]
      cases alookup td tid with
      | none => exact ih _ _
      | some j =>
        by_cases hs : isStructDecl (decls.getD j default) = true
        · simp only [hs, if_true]
          exact ih _ _
        · simp only [eq_false_of_ne_true hs, if_false]
          exact ih _ _
    | scalar i w => exact ih _ _
    | array i t => exact ih _ _
    | payload => exact ih _ _
    | body => exact ih _ _
    | size i => exact ih _ _
    | count i => exact ih _ _
    | checksumField i => exact ih _ _
    | padding => exact ih _ _
    | reservedField => exact ih _ _

/-- The field loop on plain fields appends them unchanged and leaves the
context untouched. -/
theorem processFields_plain (decls : List Decl) (td : List (String × Nat))
    (bfsF : Nat → Context → Option PacketScope × Context)
    (fs : List Field) (l : PacketScope) (c : Context)
    (h : ∀ f ∈ fs, isPlainField f = true) :
    processFields decls td bfsF fs l c =
      ({ l with fields := l.fields ++ fs }, c) := by
  induction fs generalizing l with
  | nil => simp [processFields]
  | cons f fs ih =>
    have hf := h f (List.mem_cons_self f fs)
    have ht : ∀ g ∈ fs, isPlainField g = true :=
      fun g hg => h g (List.mem_cons_of_mem f hg)
    obtain ⟨floc, fdesc⟩ := f
    cases fdesc with
    | group gid cs => simp [isPlainField] at hf
    | typedef fid tid => simp [isPlainField] at hf
    | scalar i w => rw [processFields, ih _ ht]; simp
    | array i t => rw [processFields, ih _ ht]; simp
    | payload => rw [processFields, ih _ ht]; simp
    | body => rw [processFields, ih _ ht]; simp
    | size i => rw [processFields, ih _ ht]; simp
    | count i => rw [processFields, ih _ ht]; simp
    | checksumField i => rw [processFields, ih _ ht]; simp
    | padding => rw [processFields, ih _ ht]; simp
    | reservedField => rw [processFields, ih _ ht]; simp

theorem resolveParent_none (decls : List Decl) (td : List (String × Nat))
    (bfsF : Nat → Context → Option PacketScope × Context) (decl : Decl)
    (l : PacketScope) (c : Context) (d : Nat) :
    resolveParent decls td bfsF decl none l c d = (l, c) := rfl

theorem default_scope_fields : (default : PacketScope).fields = [] := rfl

theorem processFields_group_hit (decls : List Decl) (td : List (String × Nat))
    (bfsF : Nat → Context → Option PacketScope × Context) (f : Field)
    (gid : String) (cs : List Constraint) (fs : List Field) (l : PacketScope)
    (c : Context) (j : Nat) (rs : PacketScope) (c2 : Context)
    (hd : f.desc = .group gid cs)
    (hl : alookup td gid = some j)
    (hg : isGroupDecl (decls.getD j default) = true)
    (hb : bfsF j c = (some rs, c2)) :
    processFields decls td bfsF (f :: fs) l c =
      processFields decls td bfsF fs (PacketScope.inline l rs f cs).1
        { c2 with diags := c2.diags ++ (PacketScope.inline l rs f cs).2 } := by
  have hg' : isGroupDecl (decls[j]?.getD default) = true := by
    simpa [List.getD] using hg
  obtain ⟨floc, fdesc⟩ := f
  simp only [Field.loc] at hd ⊢
  cases hd
  simp [processFields, hl, hg', hb]

/-- `Group H { fh }`, `Group G { pg; group H; sg }`,
`Packet A { pa; group G; sa }`. -/
def fileGGH (fh pg sg pa sa : List Field) : File :=
  ⟨[⟨exLoc 1, .group (some "H") fh⟩,
    ⟨exLoc 2, .group (some "G") (pg ++ (⟨exLoc 3, .group "H" []⟩ :: sg))⟩,
    ⟨exLoc 4, .packet (some "A") none []
      (pa ++ (⟨exLoc 5, .group "G" []⟩ :: sa))⟩]⟩

/-- The registry of `fileGGH`. -/
def tdGGH : List (String × Nat) := [("H", 0), ("G", 1), ("A", 2)]

/-- `H`'s local scope with its plain fields appended. -/
def c9sH (fh : List Field) : PacketScope :=
  { fh.foldl PacketScope.insert default with fields := fh }

/-- `H`'s finalized scope. -/
def c9sHf (fh : List Field) : PacketScope := (PacketScope.finalize (c9sH fh)).1

/-- The resolver state after resolving `H`. -/
def c9ctxH (fh : List Field) : Context :=
  ⟨[0], [(0, .permanent)], [(0, c9sHf fh)],
   (PacketScope.finalize (c9sH fh)).2, true, [], false⟩

/-- `G`'s local scope after the prefix `pg` has been appended. -/
def c9gBase (pg sg : List Field) : PacketScope :=
  { (pg ++ (⟨exLoc 3, .group "H" []⟩ :: sg)).foldl PacketScope.insert default
    with fields := pg }

/-- `G`'s scope after inlining the resolved `H`. -/
def c9gInl (fh pg sg : List Field) : PacketScope × List Diagnostic :=
  PacketScope.inline (c9gBase pg sg) (c9sHf fh) ⟨exLoc 3, .group "H" []⟩ []

/-- `G`'s scope before finalize. -/
def c9gPre (fh pg sg : List Field) : PacketScope :=
  { (c9gInl fh pg sg).1 with fields := (c9gInl fh pg sg).1.fields ++ sg }

/-- `G`'s finalized scope. -/
def c9sGf (fh pg sg : List Field) : PacketScope :=
  (PacketScope.finalize (c9gPre fh pg sg)).1

/-- The resolver state after resolving `H` and `G`. -/
def c9ctxG (fh pg sg : List Field) : Context :=
  ⟨[0, 1], [(0, .permanent), (1, .permanent)],
   [(0, c9sHf fh), (1, c9sGf fh pg sg)],
   (PacketScope.finalize (c9sH fh)).2 ++ (c9gInl fh pg sg).2 ++
     (PacketScope.finalize (c9gPre fh pg sg)).2,
   true, [], false⟩

/-- `A`'s local scope after the prefix `pa` has been appended. -/
def c9aBase (pa sa : List Field) : PacketScope :=
  { (pa ++ (⟨exLoc 5, .group "G" []⟩ :: sa)).foldl PacketScope.insert default
    with fields := pa }

/-- `A`'s scope after inlining the resolved `G`. -/
def c9aInl (fh pg sg pa sa : List Field) : PacketScope × List Diagnostic :=
  PacketScope.inline (c9aBase pa sa) (c9sGf fh pg sg) ⟨exLoc 5, .group "G" []⟩ []

/-- `A`'s scope before finalize. -/
def c9aPre (fh pg sg pa sa : List Field) : PacketScope :=
  { (c9aInl fh pg sg pa sa).1 with
    fields := (c9aInl fh pg sg pa sa).1.fields ++ sa }

/-- `A`'s finalized scope. -/
def c9sAf (fh pg sg pa sa : List Field) : PacketScope :=
  (PacketScope.finalize (c9aPre fh pg sg pa sa)).1

theorem c9step0 (fh pg sg pa sa : List Field)
    (hfh : ∀ f ∈ fh, isPlainField f = true) :
    bfs (fileGGH fh pg sg pa sa).declarations tdGGH 4 0 (initCtx []) =
      (some (c9sHf fh), c9ctxH fh) := by
  have hb := bfsStep_body (fileGGH fh pg sg pa sa).declarations tdGGH
    (bfs (fileGGH fh pg sg pa sa).declarations tdGGH 3) 0 (initCtx [])
    none fh rfl rfl
  rw [show (4:Nat) = 3 + 1 from rfl, bfs_succ]
  simp only [hb]
  rw [processFields_plain _ _ _ _ _ _ hfh]
  rw [resolveParent_none]
  have hscope : ({ ((decl_scope ((fileGGH fh pg sg pa sa).declarations.getD 0
      default)).getD default) with
      fields := ((decl_scope ((fileGGH fh pg sg pa sa).declarations.getD 0
        default)).getD default).fields ++ fh } : PacketScope) = c9sH fh := by
    show ({ (fh.foldl PacketScope.insert default) with
      fields := (fh.foldl PacketScope.insert default).fields ++ fh } :
        PacketScope) = c9sH fh
    rw [c9sH, foldl_insert_fields, default_scope_fields]
    rfl
  rw [hscope]
  simp [initCtx, aupd, ainsert, c9ctxH, c9sHf]

theorem c9step1 (fh pg sg pa sa : List Field)
    (hpg : ∀ f ∈ pg, isPlainField f = true)
    (hsg : ∀ f ∈ sg, isPlainField f = true) :
    bfs (fileGGH fh pg sg pa sa).declarations tdGGH 4 1 (c9ctxH fh) =
      (some (c9sGf fh pg sg), c9ctxG fh pg sg) := by
  have hb := bfsStep_body (fileGGH fh pg sg pa sa).declarations tdGGH
    (bfs (fileGGH fh pg sg pa sa).declarations tdGGH 3) 1 (c9ctxH fh)
    none (pg ++ (⟨exLoc 3, .group "H" []⟩ :: sg)) rfl rfl
  rw [show (4:Nat) = 3 + 1 from rfl, bfs_succ]
  simp only [hb]
  rw [processFields_append]
  rw [processFields_plain _ _ _ _ _ _ hpg]
  have hls : ({ ((decl_scope ((fileGGH fh pg sg pa sa).declarations.getD 1
      default)).getD default) with
      fields := ((decl_scope ((fileGGH fh pg sg pa sa).declarations.getD 1
        default)).getD default).fields ++ pg } : PacketScope) =
      c9gBase pg sg := by
    show ({ ((pg ++ (⟨exLoc 3, .group "H" []⟩ :: sg)).foldl
        PacketScope.insert default) with
        fields := ((pg ++ (⟨exLoc 3, .group "H" []⟩ :: sg)).foldl
          PacketScope.insert default).fields ++ pg } : PacketScope) =
        c9gBase pg sg
    rw [c9gBase, foldl_insert_fields, default_scope_fields]
    rfl
  rw [hls]
  rw [show ({ c9ctxH fh with
      visited := (aupd (c9ctxH fh).visited 1 Mark.temporary) } : Context) =
    ⟨[0], [(0, .permanent), (1, .temporary)], [(0, c9sHf fh)],
     (PacketScope.finalize (c9sH fh)).2, true, [], false⟩ from rfl]
  have hrec : bfs (fileGGH fh pg sg pa sa).declarations tdGGH 3 0
      ⟨[0], [(0, .permanent), (1, .temporary)], [(0, c9sHf fh)],
       (PacketScope.finalize (c9sH fh)).2, true, [], false⟩ =
      (some (c9sHf fh),
       ⟨[0], [(0, .permanent), (1, .temporary)], [(0, c9sHf fh)],
        (PacketScope.finalize (c9sH fh)).2, true, [], false⟩) := by
    rw [show (3:Nat) = 2 + 1 from rfl, bfs_succ,
      bfsStep_permanent (fileGGH fh pg sg pa sa).declarations tdGGH
        (bfs (fileGGH fh pg sg pa sa).declarations tdGGH 2) 0
        ⟨[0], [(0, .permanent), (1, .temporary)], [(0, c9sHf fh)],
         (PacketScope.finalize (c9sH fh)).2, true, [], false⟩ rfl]
    rfl
  rw [processFields_group_hit (fileGGH fh pg sg pa sa).declarations tdGGH
    (bfs (fileGGH fh pg sg pa sa).declarations tdGGH 3)
    ⟨exLoc 3, .group "H" []⟩ "H" [] sg (c9gBase pg sg)
    ⟨[0], [(0, .permanent), (1, .temporary)], [(0, c9sHf fh)],
     (PacketScope.finalize (c9sH fh)).2, true, [], false⟩ 0 (c9sHf fh)
    ⟨[0], [(0, .permanent), (1, .temporary)], [(0, c9sHf fh)],
     (PacketScope.finalize (c9sH fh)).2, true, [], false⟩
    rfl rfl rfl hrec]
  rw [show PacketScope.inline (c9gBase pg sg) (c9sHf fh)
    ⟨exLoc 3, .group "H" []⟩ [] = c9gInl fh pg sg from rfl]
  rw [processFields_plain _ _ _ _ _ _ hsg]
  rw [resolveParent_none]
  rw [show ({ (c9gInl fh pg sg).1 with
    fields := (c9gInl fh pg sg).1.fields ++ sg } : PacketScope) =
    c9gPre fh pg sg from rfl]
  simp [aupd, ainsert, c9ctxG, c9sGf]

theorem c9step2 (fh pg sg pa sa : List Field)
    (hpa : ∀ f ∈ pa, isPlainField f = true)
    (hsa : ∀ f ∈ sa, isPlainField f = true) :
    bfs (fileGGH fh pg sg pa sa).declarations tdGGH 4 2 (c9ctxG fh pg sg) =
      (some (c9sAf fh pg sg pa sa),
       { c9ctxG fh pg sg with
           list := [0, 1, 2]
           visited := [(0, .permanent), (1, .permanent), (2, .permanent)]
           scopes := [(0, c9sHf fh), (1, c9sGf fh pg sg),
             (2, c9sAf fh pg sg pa sa)]
           diags := (c9ctxG fh pg sg).diags ++ (c9aInl fh pg sg pa sa).2 ++
             (PacketScope.finalize (c9aPre fh pg sg pa sa)).2 }) := by
  have hb := bfsStep_body (fileGGH fh pg sg pa sa).declarations tdGGH
    (bfs (fileGGH fh pg sg pa sa).declarations tdGGH 3) 2 (c9ctxG fh pg sg)
    none (pa ++ (⟨exLoc 5, .group "G" []⟩ :: sa)) rfl rfl
  rw [show (4:Nat) = 3 + 1 from rfl, bfs_succ]
  simp only [hb]
  rw [processFields_append]
  rw [processFields_plain _ _ _ _ _ _ hpa]
  have hls : ({ ((decl_scope ((fileGGH fh pg sg pa sa).declarations.getD 2
      default)).getD default) with
      fields := ((decl_scope ((fileGGH fh pg sg pa sa).declarations.getD 2
        default)).getD default).fields ++ pa } : PacketScope) =
      c9aBase pa sa := by
    show ({ ((pa ++ (⟨exLoc 5, .group "G" []⟩ :: sa)).foldl
        PacketScope.insert default) with
        fields := ((pa ++ (⟨exLoc 5, .group "G" []⟩ :: sa)).foldl
          PacketScope.insert default).fields ++ pa } : PacketScope) =
        c9aBase pa sa
    rw [c9aBase, foldl_insert_fields, default_scope_fields]
    rfl
  rw [hls]
  rw [show ({ c9ctxG fh pg sg with
      visited := (aupd (c9ctxG fh pg sg).visited 2 Mark.temporary) } : Context) =
    ⟨[0, 1], [(0, .permanent), (1, .permanent), (2, .temporary)],
     [(0, c9sHf fh), (1, c9sGf fh pg sg)], (c9ctxG fh pg sg).diags,
     true, [], false⟩ from rfl]
  have hrec : bfs (fileGGH fh pg sg pa sa).declarations tdGGH 3 1
      ⟨[0, 1], [(0, .permanent), (1, .permanent), (2, .temporary)],
       [(0, c9sHf fh), (1, c9sGf fh pg sg)], (c9ctxG fh pg sg).diags,
       true, [], false⟩ =
      (some (c9sGf fh pg sg),
       ⟨[0, 1], [(0, .permanent), (1, .permanent), (2, .temporary)],
        [(0, c9sHf fh), (1, c9sGf fh pg sg)], (c9ctxG fh pg sg).diags,
        true, [], false⟩) := by
    rw [show (3:Nat) = 2 + 1 from rfl, bfs_succ,
      bfsStep_permanent (fileGGH fh pg sg pa sa).declarations tdGGH
        (bfs (fileGGH fh pg sg pa sa).declarations tdGGH 2) 1
        ⟨[0, 1], [(0, .permanent), (1, .permanent), (2, .temporary)],
         [(0, c9sHf fh), (1, c9sGf fh pg sg)], (c9ctxG fh pg sg).diags,
         true, [], false⟩ rfl]
    rfl
  rw [processFields_group_hit (fileGGH fh pg sg pa sa).declarations tdGGH
    (bfs (fileGGH fh pg sg pa sa).declarations tdGGH 3)
    ⟨exLoc 5, .group "G" []⟩ "G" [] sa (c9aBase pa sa)
    ⟨[0, 1], [(0, .permanent), (1, .permanent), (2, .temporary)],
     [(0, c9sHf fh), (1, c9sGf fh pg sg)], (c9ctxG fh pg sg).diags,
     true, [], false⟩ 1 (c9sGf fh pg sg)
    ⟨[0, 1], [(0, .permanent), (1, .permanent), (2, .temporary)],
     [(0, c9sHf fh), (1, c9sGf fh pg sg)], (c9ctxG fh pg sg).diags,
     true, [], false⟩
    rfl rfl rfl hrec]
  rw [show PacketScope.inline (c9aBase pa sa) (c9sGf fh pg sg)
    ⟨exLoc 5, .group "G" []⟩ [] = c9aInl fh pg sg pa sa from rfl]
  rw [processFields_plain _ _ _ _ _ _ hsa]
  rw [resolveParent_none]
  rw [show ({ (c9aInl fh pg sg pa sa).1 with
    fields := (c9aInl fh pg sg pa sa).1.fields ++ sa } : PacketScope) =
    c9aPre fh pg sg pa sa from rfl]
  simp [aupd, ainsert, c9ctxG, c9sAf]

theorem c9sHf_fields (fh : List Field) : (c9sHf fh).fields = fh := rfl

theorem c9sGf_fields (fh pg sg : List Field) :
    (c9sGf fh pg sg).fields = (pg ++ fh) ++ sg := rfl

theorem c9sAf_fields (fh pg sg pa sa : List Field) :
    (c9sAf fh pg sg pa sa).fields = (pa ++ ((pg ++ fh) ++ sg)) ++ sa := rfl

/-- C9: group inlining is associative with respect to field order.  For
`Group H { fh }`, `Group G { pg; group H; sg }`, `Packet A { pa; group G;
sa }` (with the surrounding fields plain), the flattened field sequence
the resolver computes for `A` equals the sequence obtained by first
flattening `H`'s fields into `G` (`flattenGroupInto "H"`) and then
flattening the resulting `G` sequence into `A` (`flattenGroupInto "G"`),
and both equal `pa ++ pg ++ fh ++ sg ++ sa`. -/
theorem claim_C9_inline_assoc (fh pg sg pa sa : List Field)
    (hfh : ∀ f ∈ fh, isPlainField f = true)
    (hpg : ∀ f ∈ pg, isPlainField f = true)
    (hsg : ∀ f ∈ sg, isPlainField f = true)
    (hpa : ∀ f ∈ pa, isPlainField f = true)
    (hsa : ∀ f ∈ sa, isPlainField f = true) :
    ∃ sH sG sA,
      alookup (scopeRun (fileGGH fh pg sg pa sa)).ctx.scopes 0 = some sH ∧
      alookup (scopeRun (fileGGH fh pg sg pa sa)).ctx.scopes 1 = some sG ∧
      alookup (scopeRun (fileGGH fh pg sg pa sa)).ctx.scopes 2 = some sA ∧
      sH.fields = fh ∧
      sG.fields = flattenGroupInto "H" sH.fields
        (pg ++ (⟨exLoc 3, .group "H" []⟩ :: sg)) ∧
      sA.fields = flattenGroupInto "G" sG.fields
        (pa ++ (⟨exLoc 5, .group "G" []⟩ :: sa)) ∧
      sA.fields = pa ++ pg ++ fh ++ sg ++ sa := by
  have hrun : (scopeRun (fileGGH fh pg sg pa sa)).ctx =
      (bfs (fileGGH fh pg sg pa sa).declarations tdGGH 4 2
        ((bfs (fileGGH fh pg sg pa sa).declarations tdGGH 4 1
          ((bfs (fileGGH fh pg sg pa sa).declarations tdGGH 4 0
            (initCtx [])).2)).2)).2 := rfl
  have h0 : (bfs (fileGGH fh pg sg pa sa).declarations tdGGH 4 0
      (initCtx [])).2 = c9ctxH fh := by rw [c9step0 fh pg sg pa sa hfh]
  have h1 : (bfs (fileGGH fh pg sg pa sa).declarations tdGGH 4 1
      (c9ctxH fh)).2 = c9ctxG fh pg sg := by
    rw [c9step1 fh pg sg pa sa hpg hsg]
  have h2 : (bfs (fileGGH fh pg sg pa sa).declarations tdGGH 4 2
      (c9ctxG fh pg sg)).2.scopes =
      [(0, c9sHf fh), (1, c9sGf fh pg sg), (2, c9sAf fh pg sg pa sa)] := by
    rw [c9step2 fh pg sg pa sa hpa hsa]
  refine ⟨c9sHf fh, c9sGf fh pg sg, c9sAf fh pg sg pa sa, ?_, ?_, ?_,
    ?_, ?_, ?_, ?_⟩
  · rw [hrun, h0, h1, h2]; rfl
  · rw [hrun, h0, h1, h2]; rfl
  · rw [hrun, h0, h1, h2]; rfl
  · exact c9sHf_fields fh
  · rw [c9sGf_fields, c9sHf_fields, flattenGroupInto_append,
      flattenGroupInto_plain _ _ pg hpg]
    simp [flattenGroupInto, flattenGroupInto_plain _ _ sg hsg,
      List.append_assoc]
  · rw [c9sAf_fields, c9sGf_fields, flattenGroupInto_append,
      flattenGroupInto_plain _ _ pa hpa]
    simp [flattenGroupInto, flattenGroupInto_plain _ _ sa hsa,
      List.append_assoc]
  · rw [c9sAf_fields]
    simp [List.append_assoc]

/-- Witness for the hypotheses of `claim_C9_inline_assoc`: the theorem
applied at concrete plain field lists. -/
theorem claim_C9_inline_assoc_witness :
    ∃ sH sG sA,
      alookup (scopeRun (fileGGH [exScalar "h1" 10] [exScalar "g1" 11]
        [exScalar "g2" 12] [exScalar "a1" 13]
        [exScalar "a2" 14])).ctx.scopes 0 = some sH ∧
      alookup (scopeRun (fileGGH [exScalar "h1" 10] [exScalar "g1" 11]
        [exScalar "g2" 12] [exScalar "a1" 13]
        [exScalar "a2" 14])).ctx.scopes 1 = some sG ∧
      alookup (scopeRun (fileGGH [exScalar "h1" 10] [exScalar "g1" 11]
        [exScalar "g2" 12] [exScalar "a1" 13]
        [exScalar "a2" 14])).ctx.scopes 2 = some sA ∧
      sH.fields = [exScalar "h1" 10] ∧
      sG.fields = flattenGroupInto "H" sH.fields
        ([exScalar "g1" 11] ++ (⟨exLoc 3, .group "H" []⟩ ::
          [exScalar "g2" 12])) ∧
      sA.fields = flattenGroupInto "G" sG.fields
        ([exScalar "a1" 13] ++ (⟨exLoc 5, .group "G" []⟩ ::
          [exScalar "a2" 14])) ∧
      sA.fields = [exScalar "a1" 13] ++ [exScalar "g1" 11] ++
        [exScalar "h1" 10] ++ [exScalar "g2" 12] ++ [exScalar "a2" 14] :=
  claim_C9_inline_assoc [exScalar "h1" 10] [exScalar "g1" 11]
    [exScalar "g2" 12] [exScalar "a1" 13] [exScalar "a2" 14]
    (by decide) (by decide) (by decide) (by decide) (by decide)


/-! ### C10: inherit is called at most once per scope and its assertion
never fails -/

theorem inline_all_constraints (s ps : PacketScope) (grp : Field)
    (cs : List Constraint) :
    (PacketScope.inline s ps grp cs).1.all_constraints = s.all_constraints :=
  rfl

theorem foldl_insert_all_constraints (fs : List Field) (s : PacketScope) :
    (fs.foldl PacketScope.insert s).all_constraints = s.all_constraints := by
  induction fs generalizing s with
  | nil => rfl
  | cons f fs ih =>
    rw [List.foldl_cons, ih]
    cases hid : f.id <;> simp [PacketScope.insert, hid]

/-- The field loop never touches `all_constraints` of the local scope. -/
theorem processFields_all_constraints (decls : List Decl)
    (td : List (String × Nat))
    (bfsF : Nat → Context → Option PacketScope × Context)
    (fs : List Field) (l : PacketScope) (c : Context) :
    ((processFields decls td bfsF fs l c).1).all_constraints =
      l.all_constraints := by
  induction fs generalizing l c with
  | nil => rfl
  | cons f fs ih =>
    obtain ⟨floc, fdesc⟩ := f
    cases fdesc with
    | group gid cs =>
      simp only [processFields]
      cases alookup td gid with
      | none => exact ih _ _
      | some j =>
        by_cases hg : isGroupDecl (decls.getD j default) = true
        · simp only [hg, if_true]
          cases (bfsF j c).1 with
          | some rscope => rw [ih]; exact inline_all_constraints _ _ _ _
          | none => exact ih _ _
        · simp only [eq_false_of_ne_true hg, if_false]
          exact ih _ _
    | typedef fid tid =>
      simp only [processFields]
      cases alookup td tid with
      | none => exact ih _ _
      | some j =>
        by_cases hs : isStructDecl (decls.getD j default) = true
        · simp only [hs, if_true]
          exact ih _ _
        · simp only [eq_false_of_ne_true hs, if_false]
          exact ih _ _
    | scalar i w => exact ih _ _
    | array i t => exact ih _ _
    | payload => exact ih _ _
    | body => exact ih _ _
    | size i => exact ih _ _
    | count i => exact ih _ _
    | checksumField i => exact ih _ _
    | padding => exact ih _ _
    | reservedField => exact ih _ _

/-- The state evolution contract used for C10: the `assertOk` flag is
preserved, visitation marks are never removed, and the `inherit` calls
recorded along the way are pairwise distinct declarations that were
unvisited before and are visited after. -/
def InhStep (c c' : Context) : Prop :=
  c'.assertOk = c.assertOk ∧
  (∀ x, alookup c.visited x ≠ none → alookup c'.visited x ≠ none) ∧
  ∃ Δ, c'.inheritCalls = c.inheritCalls ++ Δ ∧ Δ.Nodup ∧
    ∀ x ∈ Δ, alookup c.visited x = none ∧ alookup c'.visited x ≠ none

theorem inhStep_refl (c : Context) : InhStep c c :=
  ⟨rfl, fun _ h => h, [], by simp, List.nodup_nil, by simp⟩

theorem InhStep.of_eq {c c' : Context} (hA : c'.assertOk = c.assertOk)
    (hV : c'.visited = c.visited) (hI : c'.inheritCalls = c.inheritCalls) :
    InhStep c c' :=
  ⟨hA, fun x h => by rw [hV]; exact h, [], by simp [hI], List.nodup_nil,
    by simp⟩

theorem InhStep.itrans {c1 c2 c3 : Context} (h12 : InhStep c1 c2)
    (h23 : InhStep c2 c3) : InhStep c1 c3 := by
  obtain ⟨hA12, hV12, Δ1, hI12, hN1, hE1⟩ := h12
  obtain ⟨hA23, hV23, Δ2, hI23, hN2, hE2⟩ := h23
  refine ⟨hA23.trans hA12, fun x h => hV23 x (hV12 x h),
    Δ1 ++ Δ2, by rw [hI23, hI12, List.append_assoc], ?_, ?_⟩
  · rw [List.nodup_append]
    refine ⟨hN1, hN2, fun x hx1 hx2 => ?_⟩
    exact absurd (hE2 x hx2).1 (hE1 x hx1).2
  · intro x hx
    rcases List.mem_append.mp hx with hx | hx
    · exact ⟨(hE1 x hx).1, hV23 x (hE1 x hx).2⟩
    · refine ⟨?_, (hE2 x hx).2⟩
      by_contra hne
      exact absurd (hE2 x hx).1 (hV12 x hne)

/-! ### Case equations for `resolveParent` and a let-free `bfsStep` body -/

theorem resolveParent_undeclared (decls : List Decl)
    (td : List (String × Nat))
    (bfsF : Nat → Context → Option PacketScope × Context) (decl : Decl)
    (pid : String) (l : PacketScope) (c : Context) (d : Nat)
    (hl : alookup td pid = none) :
    resolveParent decls td bfsF decl (some pid) l c d =
      (l, c.push (errUndeclaredParent pid decl.loc decl.kind)) := by
  simp [resolveParent, hl]

theorem resolveParent_mismatch (decls : List Decl) (td : List (String × Nat))
    (bfsF : Nat → Context → Option PacketScope × Context) (decl : Decl)
    (pid : String) (l : PacketScope) (c : Context) (d j : Nat)
    (hl : alookup td pid = some j)
    (hm : parentMismatch decl (decls.getD j default) = true) :
    resolveParent decls td bfsF decl (some pid) l c d =
      (l, c.push (errInvalidParent pid decl.loc decl.kind)) := by
  have hm' : parentMismatch decl (decls[j]?.getD default) = true := by
    simpa [List.getD] using hm
  simp [resolveParent, hl, hm']

theorem resolveParent_inherit_some (decls : List Decl)
    (td : List (String × Nat))
    (bfsF : Nat → Context → Option PacketScope × Context) (decl : Decl)
    (pid : String) (l : PacketScope) (c : Context) (d j : Nat)
    (rs : PacketScope) (c2 : Context)
    (hl : alookup td pid = some j)
    (hm : parentMismatch decl (decls.getD j default) = false)
    (hb : bfsF j c = (some rs, c2)) :
    resolveParent decls td bfsF decl (some pid) l c d =
      ((PacketScope.inherit l rs decl.constraints).1,
       { c2 with
           assertOk := (c2.assertOk &&
             (PacketScope.inherit l rs decl.constraints).2)
           inheritCalls := c2.inheritCalls ++ [d] }) := by
  have hm' : parentMismatch decl (decls[j]?.getD default) = false := by
    simpa [List.getD] using hm
  simp [resolveParent, hl, hm', hb]

theorem resolveParent_inherit_none (decls : List Decl)
    (td : List (String × Nat))
    (bfsF : Nat → Context → Option PacketScope × Context) (decl : Decl)
    (pid : String) (l : PacketScope) (c : Context) (d j : Nat) (c2 : Context)
    (hl : alookup td pid = some j)
    (hm : parentMismatch decl (decls.getD j default) = false)
    (hb : bfsF j c = (none, c2)) :
    resolveParent decls td bfsF decl (some pid) l c d = (l, c2) := by
  have hm' : parentMismatch decl (decls[j]?.getD default) = false := by
    simpa [List.getD] using hm
  simp [resolveParent, hl, hm', hb]

/-- The let-free form of the `bfs` body equation. -/
theorem bfsStep_body' (decls : List Decl) (td : List (String × Nat))
    (rec : Nat → Context → Option PacketScope × Context) (d : Nat)
    (ctx : Context) (pid : Option String) (fs : List Field)
    (hvis : alookup ctx.visited d = none)
    (hdf : declFields (decls.getD d default) = some (pid, fs)) :
    bfsStep decls td rec d ctx =
      (some (PacketScope.finalize
        (resolveParent decls td rec (decls.getD d default) pid
          (processFields decls td rec fs
            ((decl_scope (decls.getD d default)).getD default)
            { ctx with visited := aupd ctx.visited d .temporary }).1
          (processFields decls td rec fs
            ((decl_scope (decls.getD d default)).getD default)
            { ctx with visited := aupd ctx.visited d .temporary }).2 d).1).1,
       { (resolveParent decls td rec (decls.getD d default) pid
          (processFields decls td rec fs
            ((decl_scope (decls.getD d default)).getD default)
            { ctx with visited := aupd ctx.visited d .temporary }).1
          (processFields decls td rec fs
            ((decl_scope (decls.getD d default)).getD default)
            { ctx with visited := aupd ctx.visited d .temporary }).2 d).2 with
         diags := (resolveParent decls td rec (decls.getD d default) pid
            (processFields decls td rec fs
              ((decl_scope (decls.getD d default)).getD default)
              { ctx with visited := aupd ctx.visited d .temporary }).1
            (processFields decls td rec fs
              ((decl_scope (decls.getD d default)).getD default)
              { ctx with visited := aupd ctx.visited d .temporary }).2
            d).2.diags ++
           (PacketScope.finalize
            (resolveParent decls td rec (decls.getD d default) pid
              (processFields decls td rec fs
                ((decl_scope (decls.getD d default)).getD default)
                { ctx with visited := aupd ctx.visited d .temporary }).1
              (processFields decls td rec fs
                ((decl_scope (decls.getD d default)).getD default)
                { ctx with visited := aupd ctx.visited d .temporary }).2
              d).1).2
         list := (resolveParent decls td rec (decls.getD d default) pid
            (processFields decls td rec fs
              ((decl_scope (decls.getD d default)).getD default)
              { ctx with visited := aupd ctx.visited d .temporary }).1
            (processFields decls td rec fs
              ((decl_scope (decls.getD d default)).getD default)
              { ctx with visited := aupd ctx.visited d .temporary }).2
            d).2.list ++ [d]
         visited := aupd (resolveParent decls td rec (decls.getD d default)
            pid
            (processFields decls td rec fs
              ((decl_scope (decls.getD d default)).getD default)
              { ctx with visited := aupd ctx.visited d .temporary }).1
            (processFields decls td rec fs
              ((decl_scope (decls.getD d default)).getD default)
              { ctx with visited := aupd ctx.visited d .temporary }).2
            d).2.visited d .permanent
         scopes := aupd (resolveParent decls td rec (decls.getD d default)
            pid
            (processFields decls td rec fs
              ((decl_scope (decls.getD d default)).getD default)
              { ctx with visited := aupd ctx.visited d .temporary }).1
            (processFields decls td rec fs
              ((decl_scope (decls.getD d default)).getD default)
              { ctx with visited := aupd ctx.visited d .temporary }).2
            d).2.scopes d
           (PacketScope.finalize
            (resolveParent decls td rec (decls.getD d default) pid
              (processFields decls td rec fs
                ((decl_scope (decls.getD d default)).getD default)
                { ctx with visited := aupd ctx.visited d .temporary }).1
              (processFields decls td rec fs
                ((decl_scope (decls.getD d default)).getD default)
                { ctx with visited := aupd ctx.visited d .temporary }).2
              d).1).1 }) :=
  bfsStep_body decls td rec d ctx pid fs hvis hdf

theorem inhStep_push (c : Context) (e : Diagnostic) :
    InhStep c (c.push e) :=
  InhStep.of_eq rfl rfl rfl

theorem inhStep_diags (c : Context) (ds : List Diagnostic) :
    InhStep c { c with diags := ds } :=
  InhStep.of_eq rfl rfl rfl

theorem alookup_aupd_ne_none {l : List (Nat × Mark)} {x : Nat} (k : Nat)
    (m : Mark) (h : alookup l x ≠ none) :
    alookup (aupd l k m) x ≠ none := by
  rw [alookup_aupd]
  by_cases hk : k = x <;> simp [hk, h]

theorem inhStep_mark (c : Context) (k : Nat) (m : Mark) :
    InhStep c { c with visited := aupd c.visited k m } := by
  refine ⟨rfl, ?_, [], by simp, List.nodup_nil, by simp⟩
  intro x h
  exact alookup_aupd_ne_none k m h

/-- Assembling the body of `bfs` into an `InhStep` from the pre-body
state: the body marks `d` Temporary, evolves through `cmid`, optionally
records one `inherit` call on `d`, and marks `d` Permanent. -/
theorem inhStep_body_assemble {ctx cmid cfin : Context} (d : Nat)
    (hvis : alookup ctx.visited d = none)
    (h : InhStep { ctx with visited := aupd ctx.visited d .temporary } cmid)
    (hA : cfin.assertOk = cmid.assertOk)
    (hV : cfin.visited = aupd cmid.visited d .permanent)
    (hI : cfin.inheritCalls = cmid.inheritCalls ∨
          cfin.inheritCalls = cmid.inheritCalls ++ [d]) :
    InhStep ctx cfin := by
  obtain ⟨hA2, hV2, Δ, hI2, hN, hE⟩ := h
  have hd1 : alookup (aupd ctx.visited d Mark.temporary) d =
      some .temporary := by
    rw [alookup_aupd]
    simp
  have hdΔ : d ∉ Δ := by
    intro hmem
    have := (hE d hmem).1
    simp only [] at this
    rw [hd1] at this
    exact Option.noConfusion this
  have hpre : ∀ x ∈ Δ, alookup ctx.visited x = none := by
    intro x hx
    have hx1 := (hE x hx).1
    simp only [] at hx1
    rw [alookup_aupd] at hx1
    by_cases hdx : d = x
    · simp [hdx] at hx1
    · simpa [hdx] using hx1
  have hpost : ∀ x ∈ Δ, alookup cfin.visited x ≠ none := by
    intro x hx
    rw [hV]
    exact alookup_aupd_ne_none d .permanent (hE x hx).2
  have hmono : ∀ x, alookup ctx.visited x ≠ none →
      alookup cfin.visited x ≠ none := by
    intro x hx
    rw [hV]
    exact alookup_aupd_ne_none d .permanent
      (hV2 x (alookup_aupd_ne_none d .temporary hx))
  have hdfin : alookup cfin.visited d ≠ none := by
    rw [hV, alookup_aupd]
    simp
  rcases hI with hI | hI
  · exact ⟨by rw [hA, hA2], hmono, Δ, by rw [hI, hI2], hN,
      fun x hx => ⟨hpre x hx, hpost x hx⟩⟩
  · refine ⟨by rw [hA, hA2], hmono, Δ ++ [d],
      by rw [hI, hI2, List.append_assoc], ?_, ?_⟩
    · rw [List.nodup_append]
      exact ⟨hN, List.nodup_singleton d,
        fun x hx hxd => hdΔ ((List.mem_singleton.mp hxd) ▸ hx)⟩
    · intro x hx
      rcases List.mem_append.mp hx with hx | hx
      · exact ⟨hpre x hx, hpost x hx⟩
      · rw [List.mem_singleton.mp hx]
        exact ⟨hvis, hdfin⟩

/-- The field loop is an `InhStep` whenever the recursive resolver is. -/
theorem processFields_inhStep (decls : List Decl) (td : List (String × Nat))
    (bfsF : Nat → Context → Option PacketScope × Context)
    (hF : ∀ j c, InhStep c (bfsF j c).2) :
    ∀ (fs : List Field) (l : PacketScope) (c : Context),
      InhStep c (processFields decls td bfsF fs l c).2 := by
  intro fs
  induction fs with
  | nil => intro l c; exact inhStep_refl c
  | cons f fs ih =>
    intro l c
    obtain ⟨floc, fdesc⟩ := f
    cases fdesc with
    | group gid cs =>
      simp only [processFields]
      cases alookup td gid with
      | none => exact (inhStep_push _ _).itrans (ih _ _)
      | some j =>
        by_cases hg : isGroupDecl (decls.getD j default) = true
        · simp only [hg, if_true]
          cases hb : (bfsF j c).1 with
          | some rscope =>
            refine ((hF j c).itrans ?_).itrans (ih _ _)
            exact inhStep_diags _ _
          | none => exact (hF j c).itrans (ih _ _)
        · simp only [eq_false_of_ne_true hg, if_false]
          exact (inhStep_push _ _).itrans (ih _ _)
    | typedef fid tid =>
      simp only [processFields]
      cases alookup td tid with
      | none => exact (inhStep_push _ _).itrans (ih _ _)
      | some j =>
        by_cases hs : isStructDecl (decls.getD j default) = true
        · simp only [hs, if_true]
          exact (hF j c).itrans (ih _ _)
        · simp only [eq_false_of_ne_true hs, if_false]
          exact ih _ _
    | scalar i w => exact ih _ _
    | array i t => exact ih _ _
    | payload => exact ih _ _
    | body => exact ih _ _
    | size i => exact ih _ _
    | count i => exact ih _ _
    | checksumField i => exact ih _ _
    | padding => exact ih _ _
    | reservedField => exact ih _ _

theorem decl_scope_getD_all_constraints (decl : Decl) :
    ((decl_scope decl).getD default).all_constraints = [] := by
  cases hdf : declFields decl with
  | none =>
    simp only [decl_scope, hdf, Option.getD_none]
    rfl
  | some pf =>
    simp only [decl_scope, hdf, Option.getD_some, foldl_insert_all_constraints]
    rfl

/-- The recursive resolver is an `InhStep` at every fuel. -/
theorem bfs_inhStep (decls : List Decl) (td : List (String × Nat)) :
    ∀ (fuel d : Nat) (c : Context), InhStep c (bfs decls td fuel d c).2 := by
  intro fuel
  induction fuel with
  | zero => intro d c; exact InhStep.of_eq rfl rfl rfl
  | succ n ih =>
    intro d c
    rw [bfs_succ]
    cases hvis : alookup c.visited d with
    | some m =>
      cases m with
      | permanent =>
        rw [bfsStep_permanent _ _ _ _ _ hvis]
        exact inhStep_refl c
      | temporary =>
        rw [bfsStep_temporary _ _ _ _ _ hvis]
        exact inhStep_push _ _
    | none =>
      cases hdf : declFields (decls.getD d default) with
      | none =>
        rw [bfsStep_noncomposite _ _ _ _ _ hvis hdf]
        exact inhStep_refl c
      | some pf =>
        obtain ⟨pid, fs⟩ := pf
        rw [bfsStep_body' _ _ _ _ _ pid fs hvis hdf]
        have hpf : InhStep { c with visited := aupd c.visited d .temporary }
            (processFields decls td (bfs decls td n) fs
              ((decl_scope (decls.getD d default)).getD default)
              { c with visited := aupd c.visited d .temporary }).2 :=
          processFields_inhStep decls td _ (fun j c' => ih j c') fs _ _
        cases pid with
        | none =>
          rw [resolveParent_none]
          exact inhStep_body_assemble d hvis hpf rfl rfl (Or.inl rfl)
        | some pid' =>
          cases hl : alookup td pid' with
          | none =>
            rw [resolveParent_undeclared _ _ _ _ _ _ _ _ hl]
            exact inhStep_body_assemble d hvis
              (hpf.itrans (inhStep_push _ _)) rfl rfl (Or.inl rfl)
          | some j =>
            by_cases hm : parentMismatch (decls.getD d default)
                (decls.getD j default) = true
            · rw [resolveParent_mismatch _ _ _ _ _ _ _ _ _ hl hm]
              exact inhStep_body_assemble d hvis
                (hpf.itrans (inhStep_push _ _)) rfl rfl (Or.inl rfl)
            · have hm' : parentMismatch (decls.getD d default)
                  (decls.getD j default) = false := eq_false_of_ne_true hm
              cases hrp : bfs decls td n j
                  (processFields decls td (bfs decls td n) fs
                    ((decl_scope (decls.getD d default)).getD default)
                    { c with visited := aupd c.visited d .temporary }).2 with
              | mk r1 r2 =>
                cases r1 with
                | none =>
                  rw [resolveParent_inherit_none _ _ _ _ _ _ _ _ _ _ hl hm'
                    hrp]
                  have h3 : InhStep (processFields decls td (bfs decls td n)
                      fs ((decl_scope (decls.getD d default)).getD default)
                      { c with visited := aupd c.visited d .temporary }).2
                      r2 := by
                    have := ih j (processFields decls td (bfs decls td n) fs
                      ((decl_scope (decls.getD d default)).getD default)
                      { c with visited := aupd c.visited d .temporary }).2
                    rw [hrp] at this
                    exact this
                  exact inhStep_body_assemble d hvis (hpf.itrans h3)
                    rfl rfl (Or.inl rfl)
                | some rscope =>
                  rw [resolveParent_inherit_some _ _ _ _ _ _ _ _ _ rscope r2
                    hl hm' hrp]
                  have h3 : InhStep (processFields decls td (bfs decls td n)
                      fs ((decl_scope (decls.getD d default)).getD default)
                      { c with visited := aupd c.visited d .temporary }).2
                      r2 := by
                    have := ih j (processFields decls td (bfs decls td n) fs
                      ((decl_scope (decls.getD d default)).getD default)
                      { c with visited := aupd c.visited d .temporary }).2
                    rw [hrp] at this
                    exact this
                  have hok : (PacketScope.inherit
                      (processFields decls td (bfs decls td n) fs
                        ((decl_scope (decls.getD d default)).getD default)
                        { c with visited := aupd c.visited d .temporary }).1
                      rscope (decls.getD d default).constraints).2 = true := by
                    show ((processFields decls td (bfs decls td n) fs
                      ((decl_scope (decls.getD d default)).getD default)
                      { c with visited := aupd c.visited d .temporary
                      }).1).all_constraints.isEmpty = true
                    rw [processFields_all_constraints,
                      decl_scope_getD_all_constraints]
                    rfl
                  refine inhStep_body_assemble d hvis (hpf.itrans h3)
                    ?_ rfl (Or.inr rfl)
                  show (r2.assertOk && _) = r2.assertOk
                  rw [hok, Bool.and_true]

theorem runFinalize_inhStep (decls : List Decl) (td : List (String × Nat))
    (c : Context) : InhStep c (runFinalize decls td c) := by
  unfold runFinalize
  generalize td.map Prod.snd = rs
  induction rs generalizing c with
  | nil => exact inhStep_refl c
  | cons r rs ih => exact (bfs_inhStep decls td _ r c).itrans (ih _)

/-- C10: in every run of `Scope::new`, `PacketScope::inherit` is invoked
at most once per scope (the recorded inherit calls are pairwise distinct
declarations), and the `assert!(self.all_constraints.is_empty())` on
entry to `inherit` never fails (`assertOk` stays `true`). -/
theorem claim_C10_inherit_once (f : File) :
    (scopeRun f).ctx.assertOk = true ∧
    (scopeRun f).ctx.inheritCalls.Nodup := by
  obtain ⟨hA, _, Δ, hI, hN, _⟩ := runFinalize_inhStep f.declarations
    (buildTypedef f.declarations).1 (initCtx (buildTypedef f.declarations).2)
  have hctx : (scopeRun f).ctx = runFinalize f.declarations
      (buildTypedef f.declarations).1
      (initCtx (buildTypedef f.declarations).2) := rfl
  constructor
  · rw [hctx, hA]
    rfl
  · rw [hctx, hI]
    simpa using hN

/-! ### C4: finalized scopes contain no group field -/

/-- A group field. -/
def isGroupField (f : Field) : Bool :=
  match f.desc with
  | .group _ _ => true
  | _ => false

/-- Every field of the scope's flattened sequence is a non-group field. -/
def NoGroupFields (s : PacketScope) : Prop :=
  ∀ fld ∈ s.fields, isGroupField fld = false

/-- Every scope cached in the resolver state satisfies `NoGroupFields`. -/
def NoGroupCtx (c : Context) : Prop :=
  ∀ i s, alookup c.scopes i = some s → NoGroupFields s

theorem inherit_fields (s p : PacketScope) (cs : List Constraint) :
    (PacketScope.inherit s p cs).1.fields = s.fields := rfl

theorem decl_scope_getD_fields (decl : Decl) :
    ((decl_scope decl).getD default).fields = [] := by
  cases hdf : declFields decl with
  | none =>
    simp only [decl_scope, hdf, Option.getD_none]
    rfl
  | some pf =>
    simp only [decl_scope, hdf, Option.getD_some, foldl_insert_fields]
    rfl

/-- The field loop preserves `NoGroupCtx` and `NoGroupFields`, given that
the recursive resolver does. -/
theorem processFields_noGroup (decls : List Decl) (td : List (String × Nat))
    (bfsF : Nat → Context → Option PacketScope × Context)
    (hF : ∀ j c, NoGroupCtx c → NoGroupCtx (bfsF j c).2 ∧
      ∀ rs, (bfsF j c).1 = some rs → NoGroupFields rs) :
    ∀ (fs : List Field) (l : PacketScope) (c : Context),
      NoGroupCtx c → NoGroupFields l →
      NoGroupCtx (processFields decls td bfsF fs l c).2 ∧
      NoGroupFields (processFields decls td bfsF fs l c).1 := by
  intro fs
  induction fs with
  | nil => intro l c hc hl; exact ⟨hc, hl⟩
  | cons f fs ih =>
    intro l c hc hl
    have hpush : ∀ hne : isGroupField f = false,
        NoGroupFields { l with fields := l.fields ++ [f] } := by
      intro hne fld hfld
      rcases List.mem_append.mp hfld with h | h
      · exact hl fld h
      · rw [List.mem_singleton.mp h]
        exact hne
    obtain ⟨floc, fdesc⟩ := f
    cases fdesc with
    | group gid cs =>
      simp only [processFields]
      cases alookup td gid with
      | none => exact ih _ _ hc hl
      | some j =>
        by_cases hg : isGroupDecl (decls.getD j default) = true
        · simp only [hg, if_true]
          cases hb : (bfsF j c).1 with
          | some rscope =>
            have hFr := hF j c hc
            have hrs : NoGroupFields rscope := hFr.2 rscope hb
            have hinl : NoGroupFields
                (PacketScope.inline l rscope ⟨floc, .group gid cs⟩ cs).1 := by
              intro fld hfld
              rw [inline_fields] at hfld
              rcases List.mem_append.mp hfld with h | h
              · exact hl fld h
              · exact hrs fld h
            exact ih _ _ hFr.1 hinl
          | none => exact ih _ _ (hF j c hc).1 hl
        · simp only [eq_false_of_ne_true hg, if_false]
          exact ih _ _ hc hl
    | typedef fid tid =>
      simp only [processFields]
      cases alookup td tid with
      | none => exact ih _ _ hc (hpush rfl)
      | some j =>
        by_cases hs : isStructDecl (decls.getD j default) = true
        · simp only [hs, if_true]
          exact ih _ _ (hF j c hc).1 (hpush rfl)
        · simp only [eq_false_of_ne_true hs, if_false]
          exact ih _ _ hc (hpush rfl)
    | scalar i w => exact ih _ _ hc (hpush rfl)
    | array i t => exact ih _ _ hc (hpush rfl)
    | payload => exact ih _ _ hc (hpush rfl)
    | body => exact ih _ _ hc (hpush rfl)
    | size i => exact ih _ _ hc (hpush rfl)
    | count i => exact ih _ _ hc (hpush rfl)
    | checksumField i => exact ih _ _ hc (hpush rfl)
    | padding => exact ih _ _ hc (hpush rfl)
    | reservedField => exact ih _ _ hc (hpush rfl)

/-- The recursive resolver preserves `NoGroupCtx`, and every scope it
returns satisfies `NoGroupFields`. -/
theorem bfs_noGroup (decls : List Decl) (td : List (String × Nat)) :
    ∀ (fuel d : Nat) (c : Context), NoGroupCtx c →
      NoGroupCtx (bfs decls td fuel d c).2 ∧
      ∀ rs, (bfs decls td fuel d c).1 = some rs → NoGroupFields rs := by
  intro fuel
  induction fuel with
  | zero =>
    intro d c hc
    exact ⟨hc, fun rs h => Option.noConfusion h⟩
  | succ n ih =>
    intro d c hc
    rw [bfs_succ]
    cases hvis : alookup c.visited d with
    | some m =>
      cases m with
      | permanent =>
        rw [bfsStep_permanent _ _ _ _ _ hvis]
        exact ⟨hc, fun rs h => hc d rs h⟩
      | temporary =>
        rw [bfsStep_temporary _ _ _ _ _ hvis]
        exact ⟨hc, fun rs h => Option.noConfusion h⟩
    | none =>
      cases hdf : declFields (decls.getD d default) with
      | none =>
        rw [bfsStep_noncomposite _ _ _ _ _ hvis hdf]
        exact ⟨hc, fun rs h => Option.noConfusion h⟩
      | some pf =>
        obtain ⟨pid, fs⟩ := pf
        rw [bfsStep_body' _ _ _ _ _ pid fs hvis hdf]
        have hl0 : NoGroupFields
            ((decl_scope (decls.getD d default)).getD default) := by
          intro fld hfld
          rw [decl_scope_getD_fields] at hfld
          exact absurd hfld (List.not_mem_nil fld)
        have hpf := processFields_noGroup decls td _ (fun j c' => ih j c')
          fs ((decl_scope (decls.getD d default)).getD default)
          { c with visited := aupd c.visited d .temporary } hc hl0
        -- analyze the parent resolution
        have hpr : NoGroupCtx (resolveParent decls td (bfs decls td n)
              (decls.getD d default) pid
              (processFields decls td (bfs decls td n) fs
                ((decl_scope (decls.getD d default)).getD default)
                { c with visited := aupd c.visited d .temporary }).1
              (processFields decls td (bfs decls td n) fs
                ((decl_scope (decls.getD d default)).getD default)
                { c with visited := aupd c.visited d .temporary }).2 d).2 ∧
            NoGroupFields (resolveParent decls td (bfs decls td n)
              (decls.getD d default) pid
              (processFields decls td (bfs decls td n) fs
                ((decl_scope (decls.getD d default)).getD default)
                { c with visited := aupd c.visited d .temporary }).1
              (processFields decls td (bfs decls td n) fs
                ((decl_scope (decls.getD d default)).getD default)
                { c with visited := aupd c.visited d .temporary }).2 d).1 := by
          cases pid with
          | none => rw [resolveParent_none]; exact ⟨hpf.1, hpf.2⟩
          | some pid' =>
            cases hlk : alookup td pid' with
            | none =>
              rw [resolveParent_undeclared _ _ _ _ _ _ _ _ hlk]
              exact ⟨hpf.1, hpf.2⟩
            | some j =>
              by_cases hm : parentMismatch (decls.getD d default)
                  (decls.getD j default) = true
              · rw [resolveParent_mismatch _ _ _ _ _ _ _ _ _ hlk hm]
                exact ⟨hpf.1, hpf.2⟩
              · have hm' := eq_false_of_ne_true hm
                have hrec := ih j (processFields decls td (bfs decls td n) fs
                  ((decl_scope (decls.getD d default)).getD default)
                  { c with visited := aupd c.visited d .temporary }).2 hpf.1
                cases hrp : bfs decls td n j
                    (processFields decls td (bfs decls td n) fs
                      ((decl_scope (decls.getD d default)).getD default)
                      { c with visited := aupd c.visited d .temporary }).2 with
                | mk r1 r2 =>
                  rw [hrp] at hrec
                  cases r1 with
                  | none =>
                    rw [resolveParent_inherit_none _ _ _ _ _ _ _ _ _ _ hlk
                      hm' hrp]
                    exact ⟨hrec.1, hpf.2⟩
                  | some rscope =>
                    rw [resolveParent_inherit_some _ _ _ _ _ _ _ _ _ rscope r2
                      hlk hm' hrp]
                    refine ⟨hrec.1, ?_⟩
                    intro fld hfld
                    rw [inherit_fields] at hfld
                    exact hpf.2 fld hfld
        constructor
        · intro i s hs
          simp only [] at hs
          rw [alookup_aupd] at hs
          by_cases hdi : d = i
          · rw [if_pos hdi] at hs
            cases hs
            intro fld hfld
            rw [finalize_fields] at hfld
            exact hpr.2 fld hfld
          · rw [if_neg hdi] at hs
            exact hpr.1 i s hs
        · intro rs hrs
          simp only [Option.some.injEq] at hrs
          subst hrs
          intro fld hfld
          rw [finalize_fields] at hfld
          exact hpr.2 fld hfld

theorem runFinalize_noGroup (decls : List Decl) (td : List (String × Nat))
    (c : Context) (hc : NoGroupCtx c) : NoGroupCtx (runFinalize decls td c) := by
  unfold runFinalize
  generalize td.map Prod.snd = rs
  induction rs generalizing c with
  | nil => exact hc
  | cons r rs ih =>
    exact ih _ ((bfs_noGroup decls td _ r c hc).1)

/-- C4: a finalized scope's flattened `fields` sequence never contains a
group field — every group reference has been substituted in place by the
referenced group's already-flattened sequence — and on the scenario
`Group G { x }`, `Packet P { group G; y }` resolving `P` yields the
flattened fields `[x, y]` with no diagnostics. -/
theorem claim_C4_no_group_fields :
    (∀ (f : File) (i : Nat) (s : PacketScope),
      alookup (scopeRun f).ctx.scopes i = some s →
      ∀ fld ∈ s.fields, isGroupField fld = false) ∧
    ((scopeRun fileScenarioGP).ctx.diags = [] ∧
      (∃ ps, alookup (scopeRun fileScenarioGP).ctx.scopes 1 = some ps ∧
        ps.fields = [exScalar "x" 2, exScalar "y" 5])) := by
  refine ⟨?_, rfl, ?_⟩
  · intro f i s hs
    have h0 : NoGroupCtx (initCtx (buildTypedef f.declarations).2) := by
      intro i' s' hs'
      exact absurd hs' (by simp [initCtx, alookup])
    exact runFinalize_noGroup f.declarations (buildTypedef f.declarations).1
      _ h0 i s hs
  · exact ⟨(alookup (scopeRun fileScenarioGP).ctx.scopes 1).getD default,
      by constructor <;> rfl⟩

/-- Witness for the hypotheses of `claim_C4_no_group_fields`: the general
conjunct applied at the concrete scenario file's packet scope. -/
theorem claim_C4_no_group_fields_witness :
    ∀ fld ∈ ((alookup (scopeRun fileScenarioGP).ctx.scopes 1).getD
      default).fields, isGroupField fld = false :=
  claim_C4_no_group_fields.1 fileScenarioGP 1
    ((alookup (scopeRun fileScenarioGP).ctx.scopes 1).getD default) rfl

/-! ### C3, part 1: the recursion fuel used by the driver is never
exhausted (termination of the source recursion) -/

/-- Wellformedness of the visitation map: distinct keys, all valid
declaration indices. -/
def MarksOK (decls : List Decl) (c : Context) : Prop :=
  (c.visited.map Prod.fst).Nodup ∧
  ∀ k ∈ c.visited.map Prod.fst, k < decls.length

/-- The state evolution contract for the fuel argument: the fuel-out flag
is untouched, the visitation map only grows, and its wellformedness is
preserved. -/
def VStep (decls : List Decl) (c c' : Context) : Prop :=
  c'.fuelOut = c.fuelOut ∧
  c.visited.length ≤ c'.visited.length ∧
  (MarksOK decls c → MarksOK decls c')

theorem vstep_refl (decls : List Decl) (c : Context) : VStep decls c c :=
  ⟨rfl, Nat.le.refl, fun h => h⟩

theorem VStep.vtrans {decls : List Decl} {c1 c2 c3 : Context}
    (h12 : VStep decls c1 c2) (h23 : VStep decls c2 c3) :
    VStep decls c1 c3 :=
  ⟨h23.1.trans h12.1, h12.2.1.trans h23.2.1, fun h => h23.2.2 (h12.2.2 h)⟩

theorem vstep_of_eq {decls : List Decl} {c c' : Context}
    (hF : c'.fuelOut = c.fuelOut) (hV : c'.visited = c.visited) :
    VStep decls c c' :=
  ⟨hF, by rw [hV], fun h => by
    obtain ⟨h1, h2⟩ := h
    exact ⟨by rw [hV]; exact h1, by rw [hV]; exact h2⟩⟩

theorem aupd_length_of_mem [DecidableEq α] (l : List (α × β)) (k : α) (v : β)
    (h : k ∈ l.map Prod.fst) : (aupd l k v).length = l.length := by
  have := aupd_keys_of_mem l k v h
  have h1 : (aupd l k v).length = ((aupd l k v).map Prod.fst).length := by
    rw [List.length_map]
  rw [h1, this, List.length_map]

theorem aupd_length_of_not_mem [DecidableEq α] (l : List (α × β)) (k : α)
    (v : β) (h : k ∉ l.map Prod.fst) :
    (aupd l k v).length = l.length + 1 := by
  have := aupd_keys_of_not_mem l k v h
  have h1 : (aupd l k v).length = ((aupd l k v).map Prod.fst).length := by
    rw [List.length_map]
  rw [h1, this]
  simp

theorem vstep_mark {decls : List Decl} (c : Context) (d : Nat) (m : Mark)
    (hd : d < decls.length) :
    VStep decls c { c with visited := aupd c.visited d m } := by
  refine ⟨rfl, ?_, ?_⟩
  · by_cases hk : d ∈ c.visited.map Prod.fst
    · rw [show ({ c with visited := aupd c.visited d m } :
        Context).visited = aupd c.visited d m from rfl,
        aupd_length_of_mem _ _ _ hk]
    · rw [show ({ c with visited := aupd c.visited d m } :
        Context).visited = aupd c.visited d m from rfl,
        aupd_length_of_not_mem _ _ _ hk]
      exact Nat.le_succ _
  · intro ⟨h1, h2⟩
    by_cases hk : d ∈ c.visited.map Prod.fst
    · constructor
      · rw [show ({ c with visited := aupd c.visited d m } :
          Context).visited = aupd c.visited d m from rfl,
          aupd_keys_of_mem _ _ _ hk]
        exact h1
      · intro k hkm
        rw [show ({ c with visited := aupd c.visited d m } :
          Context).visited = aupd c.visited d m from rfl,
          aupd_keys_of_mem _ _ _ hk] at hkm
        exact h2 k hkm
    · constructor
      · rw [show ({ c with visited := aupd c.visited d m } :
          Context).visited = aupd c.visited d m from rfl,
          aupd_keys_of_not_mem _ _ _ hk]
        rw [List.nodup_append]
        exact ⟨h1, List.nodup_singleton d,
          fun x hx hxd => hk ((List.mem_singleton.mp hxd) ▸ hx)⟩
      · intro k hkm
        rw [show ({ c with visited := aupd c.visited d m } :
          Context).visited = aupd c.visited d m from rfl,
          aupd_keys_of_not_mem _ _ _ hk] at hkm
        rcases List.mem_append.mp hkm with h | h
        · exact h2 k h
        · rw [List.mem_singleton.mp h]
          exact hd

theorem nodup_bounded_length_le {l : List Nat} {n : Nat} (hn : l.Nodup)
    (hb : ∀ k ∈ l, k < n) : l.length ≤ n := by
  classical
  have hsub : l.toFinset ⊆ Finset.range n := by
    intro x hx
    rw [Finset.mem_range]
    exact hb x (List.mem_toFinset.mp hx)
  have := Finset.card_le_card hsub
  rwa [List.toFinset_card_of_nodup hn, Finset.card_range] at this

theorem valid_of_composite {decls : List Decl} {d : Nat} {pf}
    (hdf : declFields (decls.getD d default) = some pf) :
    d < decls.length := by
  by_contra hge
  rw [List.getD_eq_default] at hdf
  · exact Option.noConfusion hdf
  · omega

/-- The field loop preserves the fuel contract. -/
theorem processFields_vstep (decls : List Decl) (td : List (String × Nat))
    (bfsF : Nat → Context → Option PacketScope × Context) (fl : Nat)
    (hF : ∀ j c, MarksOK decls c →
      decls.length - c.visited.length < fl → VStep decls c (bfsF j c).2) :
    ∀ (fs : List Field) (l : PacketScope) (c : Context),
      MarksOK decls c → decls.length - c.visited.length < fl →
      VStep decls c (processFields decls td bfsF fs l c).2 := by
  intro fs
  induction fs with
  | nil => intro l c hm hb; exact vstep_refl decls c
  | cons f fs ih =>
    intro l c hm hb
    have hnext : ∀ (c' : Context) (l' : PacketScope), VStep decls c c' →
        VStep decls c (processFields decls td bfsF fs l' c').2 := by
      intro c' l' hstep
      refine hstep.vtrans (ih l' c' (hstep.2.2 hm) ?_)
      have := hstep.2.1
      omega
    obtain ⟨floc, fdesc⟩ := f
    cases fdesc with
    | group gid cs =>
      simp only [processFields]
      cases alookup td gid with
      | none => exact hnext _ _ (vstep_of_eq rfl rfl)
      | some j =>
        by_cases hg : isGroupDecl (decls.getD j default) = true
        · simp only [hg, if_true]
          have hstep := hF j c hm hb
          cases hbj : (bfsF j c).1 with
          | some rscope =>
            exact hnext _ _ (hstep.vtrans (vstep_of_eq rfl rfl))
          | none => exact hnext _ _ hstep
        · simp only [eq_false_of_ne_true hg, if_false]
          exact hnext _ _ (vstep_of_eq rfl rfl)
    | typedef fid tid =>
      simp only [processFields]
      cases alookup td tid with
      | none => exact hnext _ _ (vstep_of_eq rfl rfl)
      | some j =>
        by_cases hs : isStructDecl (decls.getD j default) = true
        · simp only [hs, if_true]
          exact hnext _ _ (hF j c hm hb)
        · simp only [eq_false_of_ne_true hs, if_false]
          exact hnext _ _ (vstep_refl decls c)
    | scalar i w => exact hnext _ _ (vstep_refl decls c)
    | array i t => exact hnext _ _ (vstep_refl decls c)
    | payload => exact hnext _ _ (vstep_refl decls c)
    | body => exact hnext _ _ (vstep_refl decls c)
    | size i => exact hnext _ _ (vstep_refl decls c)
    | count i => exact hnext _ _ (vstep_refl decls c)
    | checksumField i => exact hnext _ _ (vstep_refl decls c)
    | padding => exact hnext _ _ (vstep_refl decls c)
    | reservedField => exact hnext _ _ (vstep_refl decls c)

/-- The recursive resolver never exhausts its fuel while the fuel
dominates the number of unvisited declarations. -/
theorem bfs_fuel (decls : List Decl) (td : List (String × Nat)) :
    ∀ (fuel d : Nat) (c : Context), MarksOK decls c →
      decls.length - c.visited.length < fuel →
      VStep decls c (bfs decls td fuel d c).2 := by
  intro fuel
  induction fuel with
  | zero =>
    intro d c hm hb
    omega
  | succ n ih =>
    intro d c hm hb
    rw [bfs_succ]
    cases hvis : alookup c.visited d with
    | some m =>
      cases m with
      | permanent =>
        rw [bfsStep_permanent _ _ _ _ _ hvis]
        exact vstep_refl decls c
      | temporary =>
        rw [bfsStep_temporary _ _ _ _ _ hvis]
        exact vstep_of_eq rfl rfl
    | none =>
      cases hdf : declFields (decls.getD d default) with
      | none =>
        rw [bfsStep_noncomposite _ _ _ _ _ hvis hdf]
        exact vstep_refl decls c
      | some pf =>
        obtain ⟨pid, fs⟩ := pf
        rw [bfsStep_body' _ _ _ _ _ pid fs hvis hdf]
        have hdn : d < decls.length := valid_of_composite hdf
        have hfresh : d ∉ c.visited.map Prod.fst :=
          (alookup_none_iff c.visited d).mp hvis
        have hlen : c.visited.length < decls.length := by
          have h1 : (c.visited.map Prod.fst ++ [d]).Nodup := by
            rw [List.nodup_append]
            exact ⟨hm.1, List.nodup_singleton d,
              fun x hx hxd => hfresh ((List.mem_singleton.mp hxd) ▸ hx)⟩
          have h2 : ∀ k ∈ c.visited.map Prod.fst ++ [d], k < decls.length := by
            intro k hk
            rcases List.mem_append.mp hk with h | h
            · exact hm.2 k h
            · rw [List.mem_singleton.mp h]
              exact hdn
          have := nodup_bounded_length_le h1 h2
          simp only [List.length_append, List.length_map,
            List.length_singleton] at this
          omega
        have h1 : VStep decls c
            { c with visited := aupd c.visited d .temporary } :=
          vstep_mark c d .temporary hdn
        have hlen1 : ({ c with visited := aupd c.visited d .temporary} :
            Context).visited.length = c.visited.length + 1 := by
          rw [show ({ c with visited := aupd c.visited d .temporary } :
            Context).visited = aupd c.visited d .temporary from rfl,
            aupd_length_of_not_mem _ _ _ hfresh]
        have hb1 : decls.length -
            ({ c with visited := aupd c.visited d .temporary} :
              Context).visited.length < n := by
          rw [hlen1]
          omega
        have h2 := processFields_vstep decls td (bfs decls td n) n
          (fun j c' hm' hb' => ih j c' hm' hb') fs
          ((decl_scope (decls.getD d default)).getD default)
          { c with visited := aupd c.visited d .temporary }
          (h1.2.2 hm) hb1
        have hchain1 : VStep decls c
            (processFields decls td (bfs decls td n) fs
              ((decl_scope (decls.getD d default)).getD default)
              { c with visited := aupd c.visited d .temporary }).2 :=
          h1.vtrans h2
        have hb2 : decls.length -
            (processFields decls td (bfs decls td n) fs
              ((decl_scope (decls.getD d default)).getD default)
              { c with visited := aupd c.visited d .temporary
              }).2.visited.length < n := by
          have := h2.2.1
          rw [hlen1] at this
          omega
        have h3 : VStep decls c
            (resolveParent decls td (bfs decls td n) (decls.getD d default)
              pid
              (processFields decls td (bfs decls td n) fs
                ((decl_scope (decls.getD d default)).getD default)
                { c with visited := aupd c.visited d .temporary }).1
              (processFields decls td (bfs decls td n) fs
                ((decl_scope (decls.getD d default)).getD default)
                { c with visited := aupd c.visited d .temporary }).2
              d).2 := by
          cases pid with
          | none =>
            rw [resolveParent_none]
            exact hchain1
          | some pid' =>
            cases hlk : alookup td pid' with
            | none =>
              rw [resolveParent_undeclared _ _ _ _ _ _ _ _ hlk]
              exact hchain1.vtrans (vstep_of_eq rfl rfl)
            | some j =>
              by_cases hmm : parentMismatch (decls.getD d default)
                  (decls.getD j default) = true
              · rw [resolveParent_mismatch _ _ _ _ _ _ _ _ _ hlk hmm]
                exact hchain1.vtrans (vstep_of_eq rfl rfl)
              · have hmm' := eq_false_of_ne_true hmm
                have hrec := ih j (processFields decls td (bfs decls td n) fs
                  ((decl_scope (decls.getD d default)).getD default)
                  { c with visited := aupd c.visited d .temporary }).2
                  (hchain1.2.2 hm) hb2
                cases hrp : bfs decls td n j
                    (processFields decls td (bfs decls td n) fs
                      ((decl_scope (decls.getD d default)).getD default)
                      { c with visited := aupd c.visited d .temporary
                      }).2 with
                | mk r1 r2 =>
                  rw [hrp] at hrec
                  cases r1 with
                  | none =>
                    rw [resolveParent_inherit_none _ _ _ _ _ _ _ _ _ _ hlk
                      hmm' hrp]
                    exact hchain1.vtrans hrec
                  | some rscope =>
                    rw [resolveParent_inherit_some _ _ _ _ _ _ _ _ _ rscope r2
                      hlk hmm' hrp]
                    exact (hchain1.vtrans hrec).vtrans (vstep_of_eq rfl rfl)
        refine h3.vtrans ?_
        exact (vstep_mark _ d .permanent hdn).vtrans (vstep_of_eq rfl rfl)

theorem runFinalize_vstep (decls : List Decl) (td : List (String × Nat))
    (c : Context) (hm : MarksOK decls c) :
    VStep decls c (runFinalize decls td c) := by
  unfold runFinalize
  generalize td.map Prod.snd = rs
  induction rs generalizing c with
  | nil => exact vstep_refl decls c
  | cons r rs ih =>
    have h1 := bfs_fuel decls td (decls.length + 1) r c hm (by omega)
    exact h1.vtrans (ih _ (h1.2.2 hm))

/-! ### C3, part 2: a dependency cycle forces a recursive-declaration
error -/

/-- No recursive-declaration diagnostic occurs in the list. -/
def noRec (ds : List Diagnostic) : Prop := ∀ e ∈ ds, ¬ IsRecursiveDiag e

theorem noRec_append_left {a b : List Diagnostic} (h : noRec (a ++ b)) :
    noRec a :=
  fun e he => h e (List.mem_append.mpr (Or.inl he))

theorem errRecursive_isRec (k i : String) (l : SourceRange) :
    IsRecursiveDiag (errRecursive k i l) := ⟨k, i, l, rfl⟩

/-- The dependency edges contributed by a field list (group fields
resolving to a Group, typedef fields resolving to a Struct). -/
def fieldEdges (decls : List Decl) (td : List (String × Nat))
    (fs : List Field) : List Nat :=
  fs.filterMap (fun f =>
    match f.desc with
    | .group gid _ =>
      (match alookup td gid with
      | some j => if isGroupDecl (decls.getD j default) then some j else none
      | none => none)
    | .typedef _ tid =>
      (match alookup td tid with
      | some j => if isStructDecl (decls.getD j default) then some j else none
      | none => none)
    | _ => none)

/-- The dependency edge contributed by the parent reference. -/
def parentEdgeList (decls : List Decl) (td : List (String × Nat)) (i : Nat)
    (pid : Option String) : List Nat :=
  match pid with
  | some p =>
    (match alookup td p with
    | some j =>
      if parentMismatch (decls.getD i default) (decls.getD j default) then []
      else if (declFields (decls.getD j default)).isSome then [j] else []
    | none => [])
  | none => []

theorem declEdges_decomp (decls : List Decl) (td : List (String × Nat))
    (i : Nat) (pid : Option String) (fs : List Field)
    (hdf : declFields (decls.getD i default) = some (pid, fs)) :
    declEdges decls td i =
      fieldEdges decls td fs ++ parentEdgeList decls td i pid := by
  simp only [declEdges, hdf, fieldEdges, parentEdgeList]

theorem group_composite {d : Decl} (h : isGroupDecl d = true) :
    (declFields d).isSome = true := by
  cases hd : d.desc <;> simp_all [isGroupDecl, declFields]

theorem struct_composite {d : Decl} (h : isStructDecl d = true) :
    (declFields d).isSome = true := by
  cases hd : d.desc <;> simp_all [isStructDecl, declFields]

/-- The state evolution contract for cycle detection: diagnostics and the
topological list are append-only, and existing visitation marks are
frozen. -/
def CStep (c c' : Context) : Prop :=
  (∃ t, c'.diags = c.diags ++ t) ∧
  (∃ t, c'.list = c.list ++ t) ∧
  ∀ x m, alookup c.visited x = some m → alookup c'.visited x = some m

theorem cstep_refl (c : Context) : CStep c c :=
  ⟨⟨[], by simp⟩, ⟨[], by simp⟩, fun _ _ h => h⟩

theorem CStep.ctrans {c1 c2 c3 : Context} (h12 : CStep c1 c2)
    (h23 : CStep c2 c3) : CStep c1 c3 := by
  obtain ⟨⟨t1, hd1⟩, ⟨u1, hl1⟩, hm1⟩ := h12
  obtain ⟨⟨t2, hd2⟩, ⟨u2, hl2⟩, hm2⟩ := h23
  exact ⟨⟨t1 ++ t2, by rw [hd2, hd1, List.append_assoc]⟩,
    ⟨u1 ++ u2, by rw [hl2, hl1, List.append_assoc]⟩,
    fun x m h => hm2 x m (hm1 x m h)⟩

theorem cstep_of_eq {c c' : Context} (hd : ∃ t, c'.diags = c.diags ++ t)
    (hl : c'.list = c.list) (hv : c'.visited = c.visited) : CStep c c' :=
  ⟨hd, ⟨[], by rw [hl]; simp⟩, fun x m h => by rw [hv]; exact h⟩

theorem cstep_push (c : Context) (e : Diagnostic) : CStep c (c.push e) :=
  cstep_of_eq ⟨[e], rfl⟩ rfl rfl

theorem cstep_mark_fresh {c : Context} {d : Nat} (m : Mark)
    (hvis : alookup c.visited d = none) :
    CStep c { c with visited := aupd c.visited d m } := by
  refine ⟨⟨[], by simp⟩, ⟨[], by simp⟩, fun x mm h => ?_⟩
  show alookup (aupd c.visited d m) x = some mm
  rw [alookup_aupd]
  by_cases hdx : d = x
  · rw [hdx] at hvis
    rw [hvis] at h
    exact Option.noConfusion h
  · rw [if_neg hdx]
    exact h

/-- The resolver's structural invariant: the topological list is
duplicate-free, matches the Permanent marks exactly, and every dependency
edge of a listed declaration points strictly earlier in the list. -/
def Inv (decls : List Decl) (td : List (String × Nat)) (c : Context) : Prop :=
  c.list.Nodup ∧
  (∀ x, alookup c.visited x = some .permanent ↔ x ∈ c.list) ∧
  (∀ i ∈ c.list, ∀ j ∈ declEdges decls td i,
    j ∈ c.list ∧ c.list.indexOf j < c.list.indexOf i)

theorem inv_mark_non_permanent {decls : List Decl} {td : List (String × Nat)}
    {c : Context} (hInv : Inv decls td c) (d : Nat)
    (hvis : alookup c.visited d = none) (m : Mark) (hm : m ≠ .permanent) :
    Inv decls td { c with visited := aupd c.visited d m } := by
  obtain ⟨h1, h2, h3⟩ := hInv
  refine ⟨h1, fun x => ?_, h3⟩
  show alookup (aupd c.visited d m) x = some .permanent ↔ x ∈ c.list
  rw [alookup_aupd]
  by_cases hdx : d = x
  · rw [if_pos hdx]
    constructor
    · intro he
      exact absurd (Option.some.inj he) hm
    · intro hx
      exact absurd ((h2 x).mpr hx)
        (by rw [← hdx, hvis]; exact fun hq => Option.noConfusion hq)
  · rw [if_neg hdx]
    exact h2 x

/-- `Inv` ignores the diagnostic (and other non-list, non-visited)
components. -/
theorem inv_same_list_visited {decls : List Decl} {td : List (String × Nat)}
    {c c' : Context} (h : Inv decls td c) (hl : c'.list = c.list)
    (hv : c'.visited = c.visited) : Inv decls td c' := by
  obtain ⟨h1, h2, h3⟩ := h
  rw [Inv, hl, hv]
  exact ⟨h1, h2, h3⟩

/-- The field loop preserves the cycle-detection contract: diagnostics and
list are append-only, marks are frozen, and — when the final diagnostics
contain no recursive-declaration error — the invariant is preserved and
every dependency edge contributed by the walked fields ends up in the
topological list. -/
theorem processFields_cycle (decls : List Decl) (td : List (String × Nat))
    (bfsF : Nat → Context → Option PacketScope × Context) (fl : Nat)
    (hFv : ∀ j c, MarksOK decls c → decls.length - c.visited.length < fl →
      VStep decls c (bfsF j c).2)
    (hF : ∀ j c, MarksOK decls c → decls.length - c.visited.length < fl →
      CStep c (bfsF j c).2 ∧
      (noRec (bfsF j c).2.diags → Inv decls td c →
        Inv decls td (bfsF j c).2 ∧
        ((declFields (decls.getD j default)).isSome = true →
          j ∈ (bfsF j c).2.list))) :
    ∀ (fs : List Field) (l : PacketScope) (c : Context),
      MarksOK decls c → decls.length - c.visited.length < fl →
      CStep c (processFields decls td bfsF fs l c).2 ∧
      (noRec (processFields decls td bfsF fs l c).2.diags →
        Inv decls td c →
        Inv decls td (processFields decls td bfsF fs l c).2 ∧
        ∀ j ∈ fieldEdges decls td fs,
          j ∈ (processFields decls td bfsF fs l c).2.list) := by
  intro fs
  induction fs with
  | nil =>
    intro l c hm hb
    exact ⟨cstep_refl c, fun _ hInv => ⟨hInv, by simp [fieldEdges]⟩⟩
  | cons f fs ih =>
    intro l c hm hb
    obtain ⟨floc, fdesc⟩ := f
    cases fdesc with
    | group gid cs =>
      simp only [processFields]
      cases hlk : alookup td gid with
      | none =>
        have hrest := ih l (c.push (errUndeclaredGroup gid floc)) hm hb
        refine ⟨(cstep_push _ _).ctrans hrest.1, fun hnr hInv => ?_⟩
        have hInv' : Inv decls td (c.push (errUndeclaredGroup gid floc)) :=
          inv_same_list_visited hInv rfl rfl
        obtain ⟨hI, hE⟩ := hrest.2 hnr hInv'
        refine ⟨hI, fun j hj => hE j ?_⟩
        simpa [fieldEdges, hlk] using hj
      | some j =>
        by_cases hg : isGroupDecl (decls.getD j default) = true
        · simp only [hg, if_true]
          have hv := hFv j c hm hb
          have hc := hF j c hm hb
          have hmr : MarksOK decls (bfsF j c).2 := hv.2.2 hm
          have hbr : decls.length - (bfsF j c).2.visited.length < fl := by
            have := hv.2.1
            omega
          cases hbj : (bfsF j c).1 with
          | some rscope =>
            have hrest := ih (PacketScope.inline l rscope
                ⟨floc, .group gid cs⟩ cs).1
              { (bfsF j c).2 with diags := (bfsF j c).2.diags ++
                (PacketScope.inline l rscope ⟨floc, .group gid cs⟩ cs).2 }
              hmr hbr
            have hmid : CStep c { (bfsF j c).2 with
                diags := (bfsF j c).2.diags ++
                  (PacketScope.inline l rscope ⟨floc, .group gid cs⟩ cs).2 } :=
              hc.1.ctrans (cstep_of_eq ⟨_, rfl⟩ rfl rfl)
            refine ⟨hmid.ctrans hrest.1, fun hnr hInv => ?_⟩
            have hnr2 : noRec ({ (bfsF j c).2 with
                diags := (bfsF j c).2.diags ++
                  (PacketScope.inline l rscope ⟨floc, .group gid cs⟩ cs).2
              } : Context).diags := by
              obtain ⟨t, ht⟩ := hrest.1.1
              rw [ht] at hnr
              exact noRec_append_left hnr
            have hnrj : noRec (bfsF j c).2.diags := noRec_append_left hnr2
            obtain ⟨hIj, hEj⟩ := hc.2 hnrj hInv
            have hInv' : Inv decls td { (bfsF j c).2 with
                diags := (bfsF j c).2.diags ++
                  (PacketScope.inline l rscope ⟨floc, .group gid cs⟩ cs).2 } :=
              inv_same_list_visited hIj rfl rfl
            obtain ⟨hI, hE⟩ := hrest.2 hnr hInv'
            refine ⟨hI, fun k hk => ?_⟩
            have hg2 : isGroupDecl (decls[j]?.getD default) = true := by
              simpa [List.getD] using hg
            have hk' : k = j ∨ k ∈ fieldEdges decls td fs := by
              simpa [fieldEdges, hlk, hg2] using hk
            rcases hk' with hk' | hk'
            · rw [hk']
              have hkj : j ∈ (bfsF j c).2.list :=
                hEj (group_composite hg)
              obtain ⟨t, ht⟩ := hrest.1.2.1
              rw [ht]
              exact List.mem_append.mpr (Or.inl hkj)
            · exact hE k hk'
          | none =>
            have hrest := ih l (bfsF j c).2 hmr hbr
            refine ⟨hc.1.ctrans hrest.1, fun hnr hInv => ?_⟩
            have hnrj : noRec (bfsF j c).2.diags := by
              obtain ⟨t, ht⟩ := hrest.1.1
              rw [ht] at hnr
              exact noRec_append_left hnr
            obtain ⟨hIj, hEj⟩ := hc.2 hnrj hInv
            obtain ⟨hI, hE⟩ := hrest.2 hnr hIj
            refine ⟨hI, fun k hk => ?_⟩
            have hg2 : isGroupDecl (decls[j]?.getD default) = true := by
              simpa [List.getD] using hg
            have hk' : k = j ∨ k ∈ fieldEdges decls td fs := by
              simpa [fieldEdges, hlk, hg2] using hk
            rcases hk' with hk' | hk'
            · rw [hk']
              have hkj : j ∈ (bfsF j c).2.list :=
                hEj (group_composite hg)
              obtain ⟨t, ht⟩ := hrest.1.2.1
              rw [ht]
              exact List.mem_append.mpr (Or.inl hkj)
            · exact hE k hk'
        · simp only [eq_false_of_ne_true hg, if_false]
          have hrest := ih l (c.push (errInvalidGroup gid floc)) hm hb
          refine ⟨(cstep_push _ _).ctrans hrest.1, fun hnr hInv => ?_⟩
          have hInv' : Inv decls td (c.push (errInvalidGroup gid floc)) :=
            inv_same_list_visited hInv rfl rfl
          obtain ⟨hI, hE⟩ := hrest.2 hnr hInv'
          refine ⟨hI, fun k hk => hE k ?_⟩
          have hg2 : isGroupDecl (decls[j]?.getD default) = false := by
            simpa [List.getD] using eq_false_of_ne_true hg
          simpa [fieldEdges, hlk, hg2] using hk
    | typedef fid tid =>
      simp only [processFields]
      cases hlk : alookup td tid with
      | none =>
        have hrest := ih { l with fields := l.fields ++
            [⟨floc, FieldDesc.typedef fid tid⟩] }
          (c.push (errUndeclaredTypedef tid floc)) hm hb
        refine ⟨(cstep_push _ _).ctrans hrest.1, fun hnr hInv => ?_⟩
        have hInv' : Inv decls td (c.push (errUndeclaredTypedef tid floc)) :=
          inv_same_list_visited hInv rfl rfl
        obtain ⟨hI, hE⟩ := hrest.2 hnr hInv'
        refine ⟨hI, fun k hk => hE k ?_⟩
        simpa [fieldEdges, hlk] using hk
      | some j =>
        by_cases hs : isStructDecl (decls.getD j default) = true
        · simp only [hs, if_true]
          have hv := hFv j c hm hb
          have hc := hF j c hm hb
          have hmr : MarksOK decls (bfsF j c).2 := hv.2.2 hm
          have hbr : decls.length - (bfsF j c).2.visited.length < fl := by
            have := hv.2.1
            omega
          have hrest := ih { l with fields := l.fields ++
              [⟨floc, FieldDesc.typedef fid tid⟩] } (bfsF j c).2 hmr hbr
          refine ⟨hc.1.ctrans hrest.1, fun hnr hInv => ?_⟩
          have hnrj : noRec (bfsF j c).2.diags := by
            obtain ⟨t, ht⟩ := hrest.1.1
            rw [ht] at hnr
            exact noRec_append_left hnr
          obtain ⟨hIj, hEj⟩ := hc.2 hnrj hInv
          obtain ⟨hI, hE⟩ := hrest.2 hnr hIj
          refine ⟨hI, fun k hk => ?_⟩
          have hs2 : isStructDecl (decls[j]?.getD default) = true := by
            simpa [List.getD] using hs
          have hk' : k = j ∨ k ∈ fieldEdges decls td fs := by
            simpa [fieldEdges, hlk, hs2] using hk
          rcases hk' with hk' | hk'
          · rw [hk']
            have hkj : j ∈ (bfsF j c).2.list :=
              hEj (struct_composite hs)
            obtain ⟨t, ht⟩ := hrest.1.2.1
            rw [ht]
            exact List.mem_append.mpr (Or.inl hkj)
          · exact hE k hk'
        · simp only [eq_false_of_ne_true hs, if_false]
          have hrest := ih { l with fields := l.fields ++
              [⟨floc, FieldDesc.typedef fid tid⟩] } c hm hb
          refine ⟨hrest.1, fun hnr hInv => ?_⟩
          obtain ⟨hI, hE⟩ := hrest.2 hnr hInv
          refine ⟨hI, fun k hk => hE k ?_⟩
          have hs2 : isStructDecl (decls[j]?.getD default) = false := by
            simpa [List.getD] using eq_false_of_ne_true hs
          simpa [fieldEdges, hlk, hs2] using hk
    | scalar i w =>
      have hrest := ih { l with fields := l.fields ++
          [⟨floc, FieldDesc.scalar i w⟩] } c hm hb
      refine ⟨hrest.1, fun hnr hInv => ?_⟩
      obtain ⟨hI, hE⟩ := hrest.2 hnr hInv
      exact ⟨hI, fun k hk => hE k (by simpa [fieldEdges] using hk)⟩
    | array i t =>
      have hrest := ih { l with fields := l.fields ++
          [⟨floc, FieldDesc.array i t⟩] } c hm hb
      refine ⟨hrest.1, fun hnr hInv => ?_⟩
      obtain ⟨hI, hE⟩ := hrest.2 hnr hInv
      exact ⟨hI, fun k hk => hE k (by simpa [fieldEdges] using hk)⟩
    | payload =>
      have hrest := ih { l with fields := l.fields ++
          [⟨floc, FieldDesc.payload⟩] } c hm hb
      refine ⟨hrest.1, fun hnr hInv => ?_⟩
      obtain ⟨hI, hE⟩ := hrest.2 hnr hInv
      exact ⟨hI, fun k hk => hE k (by simpa [fieldEdges] using hk)⟩
    | body =>
      have hrest := ih { l with fields := l.fields ++
          [⟨floc, FieldDesc.body⟩] } c hm hb
      refine ⟨hrest.1, fun hnr hInv => ?_⟩
      obtain ⟨hI, hE⟩ := hrest.2 hnr hInv
      exact ⟨hI, fun k hk => hE k (by simpa [fieldEdges] using hk)⟩
    | size i =>
      have hrest := ih { l with fields := l.fields ++
          [⟨floc, FieldDesc.size i⟩] } c hm hb
      refine ⟨hrest.1, fun hnr hInv => ?_⟩
      obtain ⟨hI, hE⟩ := hrest.2 hnr hInv
      exact ⟨hI, fun k hk => hE k (by simpa [fieldEdges] using hk)⟩
    | count i =>
      have hrest := ih { l with fields := l.fields ++
          [⟨floc, FieldDesc.count i⟩] } c hm hb
      refine ⟨hrest.1, fun hnr hInv => ?_⟩
      obtain ⟨hI, hE⟩ := hrest.2 hnr hInv
      exact ⟨hI, fun k hk => hE k (by simpa [fieldEdges] using hk)⟩
    | checksumField i =>
      have hrest := ih { l with fields := l.fields ++
          [⟨floc, FieldDesc.checksumField i⟩] } c hm hb
      refine ⟨hrest.1, fun hnr hInv => ?_⟩
      obtain ⟨hI, hE⟩ := hrest.2 hnr hInv
      exact ⟨hI, fun k hk => hE k (by simpa [fieldEdges] using hk)⟩
    | padding =>
      have hrest := ih { l with fields := l.fields ++
          [⟨floc, FieldDesc.padding⟩] } c hm hb
      refine ⟨hrest.1, fun hnr hInv => ?_⟩
      obtain ⟨hI, hE⟩ := hrest.2 hnr hInv
      exact ⟨hI, fun k hk => hE k (by simpa [fieldEdges] using hk)⟩
    | reservedField =>
      have hrest := ih { l with fields := l.fields ++
          [⟨floc, FieldDesc.reservedField⟩] } c hm hb
      refine ⟨hrest.1, fun hnr hInv => ?_⟩
      obtain ⟨hI, hE⟩ := hrest.2 hnr hInv
      exact ⟨hI, fun k hk => hE k (by simpa [fieldEdges] using hk)⟩

theorem cstep_body_assemble {c cmid cfin : Context} (d : Nat)
    (hvis : alookup c.visited d = none)
    (h : CStep { c with visited := aupd c.visited d .temporary } cmid)
    (hd : ∃ t, cfin.diags = cmid.diags ++ t)
    (hl : cfin.list = cmid.list ++ [d])
    (hv : cfin.visited = aupd cmid.visited d .permanent) :
    CStep c cfin := by
  obtain ⟨⟨t1, hd1⟩, ⟨u1, hl1⟩, hm1⟩ := h
  obtain ⟨t2, hd2⟩ := hd
  refine ⟨⟨t1 ++ t2, by rw [hd2, hd1]; simp [List.append_assoc]⟩,
    ⟨u1 ++ [d], by rw [hl, hl1]; simp [List.append_assoc]⟩,
    fun x m hx => ?_⟩
  have hdx : ¬ d = x := by
    intro he
    rw [← he, hvis] at hx
    exact Option.noConfusion hx
  have hx1 : alookup ({ c with visited := aupd c.visited d .temporary } :
      Context).visited x = some m := by
    show alookup (aupd c.visited d .temporary) x = some m
    rw [alookup_aupd, if_neg hdx]
    exact hx
  have hx2 := hm1 x m hx1
  rw [hv, alookup_aupd, if_neg hdx]
  exact hx2

theorem inv_body_assemble (decls : List Decl) (td : List (String × Nat))
    {c cmid cfin : Context} (d : Nat)
    (hvis : alookup c.visited d = none)
    (hcm : CStep { c with visited := aupd c.visited d .temporary } cmid)
    (hInvm : Inv decls td cmid)
    (hedges : ∀ j ∈ declEdges decls td d, j ∈ cmid.list)
    (hl : cfin.list = cmid.list ++ [d])
    (hv : cfin.visited = aupd cmid.visited d .permanent) :
    Inv decls td cfin ∧ d ∈ cfin.list := by
  obtain ⟨h1, h2, h3⟩ := hInvm
  have hdm : alookup cmid.visited d = some .temporary := by
    apply hcm.2.2
    show alookup (aupd c.visited d .temporary) d = some .temporary
    rw [alookup_aupd]
    simp
  have hdnl : d ∉ cmid.list := by
    intro hmem
    have := (h2 d).mpr hmem
    rw [hdm] at this
    exact Mark.noConfusion (Option.some.inj this)
  have hfinmem : d ∈ cfin.list := by
    rw [hl]
    exact List.mem_append.mpr (Or.inr (List.mem_singleton_self d))
  refine ⟨⟨?_, ?_, ?_⟩, hfinmem⟩
  · rw [hl, List.nodup_append]
    exact ⟨h1, List.nodup_singleton d,
      fun x hx hxd => hdnl ((List.mem_singleton.mp hxd) ▸ hx)⟩
  · intro x
    rw [hv, alookup_aupd, hl]
    by_cases hdx : d = x
    · rw [if_pos hdx]
      exact iff_of_true rfl
        (List.mem_append.mpr (Or.inr (hdx ▸ List.mem_singleton_self d)))
    · rw [if_neg hdx]
      rw [List.mem_append, List.mem_singleton]
      constructor
      · intro hp
        exact Or.inl ((h2 x).mp hp)
      · intro hp
        rcases hp with hp | hp
        · exact (h2 x).mpr hp
        · exact absurd hp.symm hdx
  · intro i hi j hj
    rw [hl] at hi
    rcases List.mem_append.mp hi with hi | hi
    · obtain ⟨hjm, hidx⟩ := h3 i hi j hj
      refine ⟨by rw [hl]; exact List.mem_append.mpr (Or.inl hjm), ?_⟩
      rw [hl, List.indexOf_append_of_mem hjm, List.indexOf_append_of_mem hi]
      exact hidx
    · have hid : i = d := List.mem_singleton.mp hi
      rw [hid] at hj
      rw [hid]
      have hjm := hedges j hj
      refine ⟨by rw [hl]; exact List.mem_append.mpr (Or.inl hjm), ?_⟩
      rw [hl, List.indexOf_append_of_mem hjm,
        List.indexOf_append_of_not_mem hdnl]
      have h4 : List.indexOf d [d] = 0 := by simp
      rw [h4, Nat.add_zero]
      exact List.indexOf_lt_length.mpr hjm

theorem parentEdgeList_mismatch (decls : List Decl) (td : List (String × Nat))
    (i : Nat) (p : String) (j : Nat) (hlk : alookup td p = some j)
    (hmm : parentMismatch (decls.getD i default) (decls.getD j default) =
      true) :
    parentEdgeList decls td i (some p) = [] := by
  simp only [parentEdgeList, hlk]
  rw [if_pos hmm]

theorem parentEdgeList_comp (decls : List Decl) (td : List (String × Nat))
    (i : Nat) (p : String) (j : Nat) (hlk : alookup td p = some j)
    (hmm : parentMismatch (decls.getD i default) (decls.getD j default) =
      false)
    (hcomp : (declFields (decls.getD j default)).isSome = true) :
    parentEdgeList decls td i (some p) = [j] := by
  simp only [parentEdgeList, hlk]
  rw [if_neg (by rw [hmm]; exact Bool.false_ne_true), if_pos hcomp]

theorem parentEdgeList_noncomp (decls : List Decl) (td : List (String × Nat))
    (i : Nat) (p : String) (j : Nat) (hlk : alookup td p = some j)
    (hmm : parentMismatch (decls.getD i default) (decls.getD j default) =
      false)
    (hcomp : ¬ (declFields (decls.getD j default)).isSome = true) :
    parentEdgeList decls td i (some p) = [] := by
  simp only [parentEdgeList, hlk]
  rw [if_neg (by rw [hmm]; exact Bool.false_ne_true), if_neg hcomp]

/-- The recursive resolver's cycle-detection contract: state evolution is
append-only with frozen marks and, absent any recursive-declaration
diagnostic, the structural invariant is preserved and a composite
argument ends up in the topological list. -/
theorem bfs_cycle (decls : List Decl) (td : List (String × Nat)) :
    ∀ (fuel d : Nat) (c : Context), MarksOK decls c →
      decls.length - c.visited.length < fuel →
      CStep c (bfs decls td fuel d c).2 ∧
      (noRec (bfs decls td fuel d c).2.diags → Inv decls td c →
        Inv decls td (bfs decls td fuel d c).2 ∧
        ((declFields (decls.getD d default)).isSome = true →
          d ∈ (bfs decls td fuel d c).2.list)) := by
  intro fuel
  induction fuel with
  | zero => intro d c hm hb; omega
  | succ n ih =>
    intro d c hm hb
    rw [bfs_succ]
    cases hvis : alookup c.visited d with
    | some m =>
      cases m with
      | permanent =>
        rw [bfsStep_permanent _ _ _ _ _ hvis]
        exact ⟨cstep_refl c, fun _ hInv =>
          ⟨hInv, fun _ => (hInv.2.1 d).mp hvis⟩⟩
      | temporary =>
        rw [bfsStep_temporary _ _ _ _ _ hvis]
        refine ⟨cstep_push _ _, fun hnr _ => ?_⟩
        exact absurd (errRecursive_isRec _ _ _)
          (hnr _ (List.mem_append.mpr (Or.inr (List.mem_singleton_self _))))
    | none =>
      cases hdf : declFields (decls.getD d default) with
      | none =>
        rw [bfsStep_noncomposite _ _ _ _ _ hvis hdf]
        refine ⟨cstep_refl c, fun _ hInv => ⟨hInv, fun hcomp => ?_⟩⟩
        simp at hcomp
      | some pf =>
        obtain ⟨pid, fs⟩ := pf
        rw [bfsStep_body' _ _ _ _ _ pid fs hvis hdf]
        have hdn : d < decls.length := valid_of_composite hdf
        have hfresh : d ∉ c.visited.map Prod.fst :=
          (alookup_none_iff c.visited d).mp hvis
        have h1v : VStep decls c
            { c with visited := aupd c.visited d .temporary } :=
          vstep_mark c d .temporary hdn
        have hm1 : MarksOK decls
            { c with visited := aupd c.visited d .temporary } := h1v.2.2 hm
        have hlen1 : ({ c with visited := aupd c.visited d .temporary} :
            Context).visited.length = c.visited.length + 1 := by
          rw [show ({ c with visited := aupd c.visited d .temporary } :
            Context).visited = aupd c.visited d .temporary from rfl,
            aupd_length_of_not_mem _ _ _ hfresh]
        have hlen : c.visited.length < decls.length := by
          have h1 : (c.visited.map Prod.fst ++ [d]).Nodup := by
            rw [List.nodup_append]
            exact ⟨hm.1, List.nodup_singleton d,
              fun x hx hxd => hfresh ((List.mem_singleton.mp hxd) ▸ hx)⟩
          have h2 : ∀ k ∈ c.visited.map Prod.fst ++ [d],
              k < decls.length := by
            intro k hk
            rcases List.mem_append.mp hk with h | h
            · exact hm.2 k h
            · rw [List.mem_singleton.mp h]
              exact hdn
          have := nodup_bounded_length_le h1 h2
          simp only [List.length_append, List.length_map,
            List.length_singleton] at this
          omega
        have hb1 : decls.length -
            ({ c with visited := aupd c.visited d .temporary} :
              Context).visited.length < n := by
          rw [hlen1]
          omega
        have hpcv := processFields_vstep decls td (bfs decls td n) n
          (fun j c' hm' hb' => bfs_fuel decls td n j c' hm' hb') fs
          ((decl_scope (decls.getD d default)).getD default)
          { c with visited := aupd c.visited d .temporary } hm1 hb1
        have hpc := processFields_cycle decls td (bfs decls td n) n
          (fun j c' hm' hb' => bfs_fuel decls td n j c' hm' hb')
          (fun j c' hm' hb' => ih j c' hm' hb') fs
          ((decl_scope (decls.getD d default)).getD default)
          { c with visited := aupd c.visited d .temporary } hm1 hb1
        have hmr : MarksOK decls
            (processFields decls td (bfs decls td n) fs
              ((decl_scope (decls.getD d default)).getD default)
              { c with visited := aupd c.visited d .temporary }).2 :=
          hpcv.2.2 hm1
        have hbr : decls.length -
            (processFields decls td (bfs decls td n) fs
              ((decl_scope (decls.getD d default)).getD default)
              { c with visited := aupd c.visited d .temporary
              }).2.visited.length < n := by
          have := hpcv.2.1
          rw [hlen1] at this
          omega
        cases pid with
        | none =>
          rw [resolveParent_none]
          refine ⟨cstep_body_assemble d hvis hpc.1 ⟨_, rfl⟩ rfl rfl,
            fun hnr hInv => ?_⟩
          have hnrp : noRec (processFields decls td (bfs decls td n) fs
              ((decl_scope (decls.getD d default)).getD default)
              { c with visited := aupd c.visited d .temporary
              }).2.diags := noRec_append_left hnr
          have hInv1 : Inv decls td
              { c with visited := aupd c.visited d .temporary } :=
            inv_mark_non_permanent hInv d hvis .temporary
              (fun h => Mark.noConfusion h)
          obtain ⟨hInvr, hEf⟩ := hpc.2 hnrp hInv1
          have hedges : ∀ j ∈ declEdges decls td d,
              j ∈ (processFields decls td (bfs decls td n) fs
                ((decl_scope (decls.getD d default)).getD default)
                { c with visited := aupd c.visited d .temporary
                }).2.list := by
            rw [declEdges_decomp _ _ _ _ _ hdf]
            intro j hj
            rcases List.mem_append.mp hj with hj | hj
            · exact hEf j hj
            · simp [parentEdgeList] at hj
          exact ⟨(inv_body_assemble decls td d hvis hpc.1 hInvr hedges rfl rfl).1,
            fun _ => (inv_body_assemble decls td d hvis hpc.1 hInvr hedges rfl rfl).2⟩
        | some pid' =>
          cases hlk : alookup td pid' with
          | none =>
            rw [resolveParent_undeclared _ _ _ _ _ _ _ _ hlk]
            have hcmid : CStep { c with visited := aupd c.visited d Mark.temporary }
                ((processFields decls td (bfs decls td n) fs
                  ((decl_scope (decls.getD d default)).getD default)
                  { c with visited := aupd c.visited d .temporary
                  }).2.push (errUndeclaredParent pid'
                    (decls.getD d default).loc
                    (decls.getD d default).kind)) :=
              hpc.1.ctrans (cstep_push _ _)
            refine ⟨cstep_body_assemble d hvis hcmid ⟨_, rfl⟩ rfl rfl,
              fun hnr hInv => ?_⟩
            have hnrmid : noRec ((processFields decls td (bfs decls td n) fs
                ((decl_scope (decls.getD d default)).getD default)
                { c with visited := aupd c.visited d .temporary
                }).2.push (errUndeclaredParent pid'
                  (decls.getD d default).loc
                  (decls.getD d default).kind)).diags :=
              noRec_append_left hnr
            have hnrp : noRec (processFields decls td (bfs decls td n) fs
                ((decl_scope (decls.getD d default)).getD default)
                { c with visited := aupd c.visited d .temporary
                }).2.diags := noRec_append_left hnrmid
            have hInv1 : Inv decls td
                { c with visited := aupd c.visited d .temporary } :=
              inv_mark_non_permanent hInv d hvis .temporary
                (fun h => Mark.noConfusion h)
            obtain ⟨hInvr, hEf⟩ := hpc.2 hnrp hInv1
            have hInvmid : Inv decls td
                ((processFields decls td (bfs decls td n) fs
                  ((decl_scope (decls.getD d default)).getD default)
                  { c with visited := aupd c.visited d .temporary
                  }).2.push (errUndeclaredParent pid'
                    (decls.getD d default).loc
                    (decls.getD d default).kind)) :=
              inv_same_list_visited hInvr rfl rfl
            have hedges : ∀ j ∈ declEdges decls td d,
                j ∈ ((processFields decls td (bfs decls td n) fs
                  ((decl_scope (decls.getD d default)).getD default)
                  { c with visited := aupd c.visited d .temporary
                  }).2.push (errUndeclaredParent pid'
                    (decls.getD d default).loc
                    (decls.getD d default).kind)).list := by
              rw [declEdges_decomp _ _ _ _ _ hdf]
              intro j hj
              rcases List.mem_append.mp hj with hj | hj
              · exact hEf j hj
              · simp [parentEdgeList, hlk] at hj
            exact ⟨(inv_body_assemble decls td d hvis hcmid hInvmid hedges rfl rfl).1,
              fun _ => (inv_body_assemble decls td d hvis hcmid hInvmid hedges rfl rfl).2⟩
          | some j =>
            by_cases hmm : parentMismatch (decls.getD d default)
                (decls.getD j default) = true
            · rw [resolveParent_mismatch _ _ _ _ _ _ _ _ _ hlk hmm]
              have hcmid : CStep { c with visited := aupd c.visited d Mark.temporary }
                  ((processFields decls td (bfs decls td n) fs
                    ((decl_scope (decls.getD d default)).getD default)
                    { c with visited := aupd c.visited d .temporary
                    }).2.push (errInvalidParent pid'
                      (decls.getD d default).loc
                      (decls.getD d default).kind)) :=
                hpc.1.ctrans (cstep_push _ _)
              refine ⟨cstep_body_assemble d hvis hcmid ⟨_, rfl⟩ rfl rfl,
                fun hnr hInv => ?_⟩
              have hnrmid : noRec ((processFields decls td (bfs decls td n)
                  fs ((decl_scope (decls.getD d default)).getD default)
                  { c with visited := aupd c.visited d .temporary
                  }).2.push (errInvalidParent pid'
                    (decls.getD d default).loc
                    (decls.getD d default).kind)).diags :=
                noRec_append_left hnr
              have hnrp : noRec (processFields decls td (bfs decls td n) fs
                  ((decl_scope (decls.getD d default)).getD default)
                  { c with visited := aupd c.visited d .temporary
                  }).2.diags := noRec_append_left hnrmid
              have hInv1 : Inv decls td
                  { c with visited := aupd c.visited d .temporary } :=
                inv_mark_non_permanent hInv d hvis .temporary
                  (fun h => Mark.noConfusion h)
              obtain ⟨hInvr, hEf⟩ := hpc.2 hnrp hInv1
              have hInvmid : Inv decls td
                  ((processFields decls td (bfs decls td n) fs
                    ((decl_scope (decls.getD d default)).getD default)
                    { c with visited := aupd c.visited d .temporary
                    }).2.push (errInvalidParent pid'
                      (decls.getD d default).loc
                      (decls.getD d default).kind)) :=
                inv_same_list_visited hInvr rfl rfl
              have hedges : ∀ k ∈ declEdges decls td d,
                  k ∈ ((processFields decls td (bfs decls td n) fs
                    ((decl_scope (decls.getD d default)).getD default)
                    { c with visited := aupd c.visited d .temporary
                    }).2.push (errInvalidParent pid'
                      (decls.getD d default).loc
                      (decls.getD d default).kind)).list := by
                rw [declEdges_decomp _ _ _ _ _ hdf]
                intro k hk
                rcases List.mem_append.mp hk with hk | hk
                · exact hEf k hk
                · rw [parentEdgeList_mismatch decls td d pid' j hlk hmm] at hk
                  exact absurd hk (List.not_mem_nil k)
              exact ⟨(inv_body_assemble decls td d hvis hcmid hInvmid hedges rfl rfl).1,
                fun _ => (inv_body_assemble decls td d hvis hcmid hInvmid hedges rfl rfl).2⟩
            · have hmm' := eq_false_of_ne_true hmm
              have hrecp := ih j (processFields decls td (bfs decls td n) fs
                ((decl_scope (decls.getD d default)).getD default)
                { c with visited := aupd c.visited d .temporary }).2 hmr hbr
              cases hrp : bfs decls td n j
                  (processFields decls td (bfs decls td n) fs
                    ((decl_scope (decls.getD d default)).getD default)
                    { c with visited := aupd c.visited d .temporary
                    }).2 with
              | mk r1 r2 =>
                rw [hrp] at hrecp
                cases r1 with
                | none =>
                  rw [resolveParent_inherit_none _ _ _ _ _ _ _ _ _ _ hlk hmm'
                    hrp]
                  have hcmid : CStep { c with visited := aupd c.visited d Mark.temporary } r2 := hpc.1.ctrans hrecp.1
                  refine ⟨cstep_body_assemble d hvis hcmid ⟨_, rfl⟩ rfl rfl,
                    fun hnr hInv => ?_⟩
                  have hnr2 : noRec r2.diags := noRec_append_left hnr
                  have hnrp : noRec (processFields decls td (bfs decls td n)
                      fs ((decl_scope (decls.getD d default)).getD default)
                      { c with visited := aupd c.visited d .temporary
                      }).2.diags := by
                    obtain ⟨t, ht⟩ := hrecp.1.1
                    rw [ht] at hnr2
                    exact noRec_append_left hnr2
                  have hInv1 : Inv decls td
                      { c with visited := aupd c.visited d .temporary } :=
                    inv_mark_non_permanent hInv d hvis .temporary
                      (fun h => Mark.noConfusion h)
                  obtain ⟨hInvr, hEf⟩ := hpc.2 hnrp hInv1
                  obtain ⟨hInv2, hj2⟩ := hrecp.2 hnr2 hInvr
                  have hedges : ∀ k ∈ declEdges decls td d,
                      k ∈ r2.list := by
                    rw [declEdges_decomp _ _ _ _ _ hdf]
                    intro k hk
                    rcases List.mem_append.mp hk with hk | hk
                    · obtain ⟨t, ht⟩ := hrecp.1.2.1
                      rw [ht]
                      exact List.mem_append.mpr (Or.inl (hEf k hk))
                    · by_cases hcomp : (declFields
                          (decls.getD j default)).isSome = true
                      · rw [parentEdgeList_comp decls td d pid' j hlk hmm' hcomp] at hk
                        rw [List.mem_singleton.mp hk]
                        exact hj2 hcomp
                      · rw [parentEdgeList_noncomp decls td d pid' j hlk hmm' hcomp] at hk
                        exact absurd hk (List.not_mem_nil k)
                  exact ⟨(inv_body_assemble decls td d hvis hcmid hInv2 hedges rfl rfl).1,
                    fun _ => (inv_body_assemble decls td d hvis hcmid hInv2 hedges rfl rfl).2⟩
                | some rscope =>
                  rw [resolveParent_inherit_some _ _ _ _ _ _ _ _ _ rscope r2
                    hlk hmm' hrp]
                  have hcmid : CStep { c with visited := aupd c.visited d Mark.temporary }
                      { r2 with
                          assertOk := (r2.assertOk && (PacketScope.inherit
                            (processFields decls td (bfs decls td n) fs
                              ((decl_scope (decls.getD d default)).getD
                                default)
                              { c with visited := aupd c.visited d Mark.temporary }).1 rscope
                            (decls.getD d default).constraints).2)
                          inheritCalls := r2.inheritCalls ++ [d] } :=
                    (hpc.1.ctrans hrecp.1).ctrans
                      (cstep_of_eq ⟨[], by simp⟩ rfl rfl)
                  refine ⟨cstep_body_assemble d hvis hcmid ⟨_, rfl⟩ rfl rfl,
                    fun hnr hInv => ?_⟩
                  have hnr2 : noRec r2.diags := noRec_append_left hnr
                  have hnrp : noRec (processFields decls td (bfs decls td n)
                      fs ((decl_scope (decls.getD d default)).getD default)
                      { c with visited := aupd c.visited d .temporary
                      }).2.diags := by
                    obtain ⟨t, ht⟩ := hrecp.1.1
                    rw [ht] at hnr2
                    exact noRec_append_left hnr2
                  have hInv1 : Inv decls td
                      { c with visited := aupd c.visited d .temporary } :=
                    inv_mark_non_permanent hInv d hvis .temporary
                      (fun h => Mark.noConfusion h)
                  obtain ⟨hInvr, hEf⟩ := hpc.2 hnrp hInv1
                  obtain ⟨hInv2, hj2⟩ := hrecp.2 hnr2 hInvr
                  have hInvmid : Inv decls td
                      { r2 with
                          assertOk := (r2.assertOk && (PacketScope.inherit
                            (processFields decls td (bfs decls td n) fs
                              ((decl_scope (decls.getD d default)).getD
                                default)
                              { c with visited := aupd c.visited d Mark.temporary }).1 rscope
                            (decls.getD d default).constraints).2)
                          inheritCalls := r2.inheritCalls ++ [d] } :=
                    inv_same_list_visited hInv2 rfl rfl
                  have hedges : ∀ k ∈ declEdges decls td d,
                      k ∈ ({ r2 with
                          assertOk := (r2.assertOk && (PacketScope.inherit
                            (processFields decls td (bfs decls td n) fs
                              ((decl_scope (decls.getD d default)).getD
                                default)
                              { c with visited := aupd c.visited d Mark.temporary }).1 rscope
                            (decls.getD d default).constraints).2)
                          inheritCalls := r2.inheritCalls ++ [d] } :
                        Context).list := by
                    show ∀ k ∈ declEdges decls td d, k ∈ r2.list
                    rw [declEdges_decomp _ _ _ _ _ hdf]
                    intro k hk
                    rcases List.mem_append.mp hk with hk | hk
                    · obtain ⟨t, ht⟩ := hrecp.1.2.1
                      rw [ht]
                      exact List.mem_append.mpr (Or.inl (hEf k hk))
                    · by_cases hcomp : (declFields
                          (decls.getD j default)).isSome = true
                      · rw [parentEdgeList_comp decls td d pid' j hlk hmm' hcomp] at hk
                        rw [List.mem_singleton.mp hk]
                        exact hj2 hcomp
                      · rw [parentEdgeList_noncomp decls td d pid' j hlk hmm' hcomp] at hk
                        exact absurd hk (List.not_mem_nil k)
                  exact ⟨(inv_body_assemble decls td d hvis hcmid hInvmid hedges rfl rfl).1,
                    fun _ => (inv_body_assemble decls td d hvis hcmid hInvmid hedges rfl rfl).2⟩

theorem alookup_mem_map_snd [DecidableEq α] :
    ∀ (l : List (α × β)) (k : α) (v : β),
      alookup l k = some v → v ∈ l.map Prod.snd
  | [], _, _, h => Option.noConfusion h
  | (k', v') :: t, k, v, h => by
    by_cases he : k' = k
    · simp only [alookup, if_pos he] at h
      simp [← Option.some.inj h]
    · simp only [alookup, if_neg he] at h
      exact List.mem_cons.mpr (Or.inr (alookup_mem_map_snd t k v h))

/-- Every target of a field dependency edge is registered in the typedef
namespace and is composite. -/
theorem fieldEdges_target (decls : List Decl) (td : List (String × Nat)) :
    ∀ (fs : List Field) (j : Nat), j ∈ fieldEdges decls td fs →
      j ∈ td.map Prod.snd ∧
      (declFields (decls.getD j default)).isSome = true := by
  intro fs
  induction fs with
  | nil =>
    intro j h
    exact absurd h (List.not_mem_nil j)
  | cons fld fs ih =>
    intro j h
    cases hdesc : fld.desc with
    | group gid cs =>
      simp only [fieldEdges, List.filterMap_cons, hdesc] at h
      cases hlk : alookup td gid with
      | none =>
        simp only [hlk] at h
        exact ih j h
      | some j' =>
        simp only [hlk] at h
        by_cases hg : isGroupDecl (decls.getD j' default) = true
        · simp only [hg, if_true] at h
          rcases List.mem_cons.mp h with hj | hj
          · rw [hj]
            exact ⟨alookup_mem_map_snd td gid j' hlk, group_composite hg⟩
          · exact ih j hj
        · simp only [hg, if_false] at h
          exact ih j h
    | typedef fid tid =>
      simp only [fieldEdges, List.filterMap_cons, hdesc] at h
      cases hlk : alookup td tid with
      | none =>
        simp only [hlk] at h
        exact ih j h
      | some j' =>
        simp only [hlk] at h
        by_cases hg : isStructDecl (decls.getD j' default) = true
        · simp only [hg, if_true] at h
          rcases List.mem_cons.mp h with hj | hj
          · rw [hj]
            exact ⟨alookup_mem_map_snd td tid j' hlk, struct_composite hg⟩
          · exact ih j hj
        · simp only [hg, if_false] at h
          exact ih j h
    | scalar a b =>
      simp only [fieldEdges, List.filterMap_cons, hdesc] at h
      exact ih j h
    | array a b =>
      simp only [fieldEdges, List.filterMap_cons, hdesc] at h
      exact ih j h
    | payload =>
      simp only [fieldEdges, List.filterMap_cons, hdesc] at h
      exact ih j h
    | body =>
      simp only [fieldEdges, List.filterMap_cons, hdesc] at h
      exact ih j h
    | size a =>
      simp only [fieldEdges, List.filterMap_cons, hdesc] at h
      exact ih j h
    | count a =>
      simp only [fieldEdges, List.filterMap_cons, hdesc] at h
      exact ih j h
    | checksumField a =>
      simp only [fieldEdges, List.filterMap_cons, hdesc] at h
      exact ih j h
    | padding =>
      simp only [fieldEdges, List.filterMap_cons, hdesc] at h
      exact ih j h
    | reservedField =>
      simp only [fieldEdges, List.filterMap_cons, hdesc] at h
      exact ih j h

/-- Every target of a parent dependency edge is registered in the typedef
namespace and is composite. -/
theorem parentEdge_target (decls : List Decl) (td : List (String × Nat))
    (k : Nat) (pid : Option String) (j : Nat)
    (h : j ∈ parentEdgeList decls td k pid) :
    j ∈ td.map Prod.snd ∧
    (declFields (decls.getD j default)).isSome = true := by
  cases pid with
  | none => simp [parentEdgeList] at h
  | some p =>
    cases hlk : alookup td p with
    | none =>
      simp [parentEdgeList, hlk] at h
    | some j' =>
      by_cases hmm : parentMismatch (decls.getD k default)
          (decls.getD j' default) = true
      · rw [parentEdgeList_mismatch decls td k p j' hlk hmm] at h
        exact absurd h (List.not_mem_nil j)
      · have hmm' := eq_false_of_ne_true hmm
        by_cases hcomp : (declFields (decls.getD j' default)).isSome = true
        · rw [parentEdgeList_comp decls td k p j' hlk hmm' hcomp] at h
          rw [List.mem_singleton.mp h]
          exact ⟨alookup_mem_map_snd td p j' hlk, hcomp⟩
        · rw [parentEdgeList_noncomp decls td k p j' hlk hmm' hcomp] at h
          exact absurd h (List.not_mem_nil j)

/-- Every target of a dependency edge is registered in the typedef
namespace and is composite. -/
theorem edge_target (decls : List Decl) (td : List (String × Nat))
    (k j : Nat) (h : j ∈ declEdges decls td k) :
    j ∈ td.map Prod.snd ∧
    (declFields (decls.getD j default)).isSome = true := by
  cases hdf : declFields (decls.getD k default) with
  | none =>
    simp only [declEdges, hdf] at h
    exact absurd h (List.not_mem_nil j)
  | some pf =>
    obtain ⟨pid, fs⟩ := pf
    rw [declEdges_decomp decls td k pid fs hdf] at h
    rcases List.mem_append.mp h with h | h
    · exact fieldEdges_target decls td fs j h
    · exact parentEdge_target decls td k pid j h

/-- Along the invariant's topological list, multi-step dependency chains
strictly decrease the list index. -/
theorem inv_descent {decls : List Decl} {td : List (String × Nat)}
    {c : Context} (hInv : Inv decls td c) {a b : Nat}
    (h : Relation.TransGen (fun x y => y ∈ declEdges decls td x) a b)
    (ha : a ∈ c.list) :
    b ∈ c.list ∧ c.list.indexOf b < c.list.indexOf a := by
  induction h with
  | single h1 => exact hInv.2.2 a ha _ h1
  | tail h1 h2 ih =>
    obtain ⟨hb, hlt⟩ := ih
    obtain ⟨hc, hlt2⟩ := hInv.2.2 _ hb _ h2
    exact ⟨hc, lt_trans hlt2 hlt⟩

/-- The driver loop satisfies the cycle-detection contract: absent any
recursive-declaration diagnostic, the structural invariant is established
and every composite registered declaration lands in the topological
list. -/
theorem runFinalize_cycle (decls : List Decl) (td : List (String × Nat)) :
    ∀ (l : List Nat) (c : Context), MarksOK decls c →
      CStep c (l.foldl
        (fun ctx e => (bfs decls td (decls.length + 1) e ctx).2) c) ∧
      (noRec (l.foldl
          (fun ctx e => (bfs decls td (decls.length + 1) e ctx).2) c).diags →
        Inv decls td c →
        Inv decls td (l.foldl
          (fun ctx e => (bfs decls td (decls.length + 1) e ctx).2) c) ∧
        ∀ d ∈ l, (declFields (decls.getD d default)).isSome = true →
          d ∈ (l.foldl
            (fun ctx e => (bfs decls td (decls.length + 1) e ctx).2)
            c).list) := by
  intro l
  induction l with
  | nil =>
    intro c hm
    exact ⟨cstep_refl c, fun _ hInv =>
      ⟨hInv, fun d hd => absurd hd (List.not_mem_nil d)⟩⟩
  | cons e l ih =>
    intro c hm
    simp only [List.foldl_cons]
    have hstep := bfs_cycle decls td (decls.length + 1) e c hm (by omega)
    have hm1 : MarksOK decls (bfs decls td (decls.length + 1) e c).2 :=
      (bfs_fuel decls td (decls.length + 1) e c hm (by omega)).2.2 hm
    obtain ⟨ihC, ihCond⟩ := ih (bfs decls td (decls.length + 1) e c).2 hm1
    refine ⟨hstep.1.ctrans ihC, fun hnr hInv => ?_⟩
    have hnr1 : noRec (bfs decls td (decls.length + 1) e c).2.diags := by
      obtain ⟨t, ht⟩ := ihC.1
      rw [ht] at hnr
      exact noRec_append_left hnr
    obtain ⟨hInv1, hdm⟩ := hstep.2 hnr1 hInv
    obtain ⟨hInvF, hall⟩ := ihCond hnr hInv1
    refine ⟨hInvF, fun d hd hcomp => ?_⟩
    rcases List.mem_cons.mp hd with hde | hdl
    · obtain ⟨t, ht⟩ := ihC.2.1
      rw [ht]
      refine List.mem_append.mpr (Or.inl ?_)
      rw [hde]
      rw [hde] at hcomp
      exact hdm hcomp
    · exact hall d hdl hcomp

theorem marksOK_initCtx (decls : List Decl) (ds : List Diagnostic) :
    MarksOK decls (initCtx ds) :=
  ⟨List.nodup_nil, fun k hk => absurd hk (List.not_mem_nil k)⟩

theorem inv_initCtx (decls : List Decl) (td : List (String × Nat))
    (ds : List Diagnostic) : Inv decls td (initCtx ds) := by
  refine ⟨List.nodup_nil, fun x => ?_,
    fun i hi => absurd hi (List.not_mem_nil i)⟩
  constructor
  · intro h
    exact Option.noConfusion h
  · intro h
    exact absurd h (List.not_mem_nil x)

/-- The fuel cut-off of the model is never reached on any input. -/
theorem scopeRun_fuelOut (f : File) : (scopeRun f).ctx.fuelOut = false := by
  have h := runFinalize_vstep f.declarations (buildTypedef f.declarations).1
    (initCtx (buildTypedef f.declarations).2) (marksOK_initCtx _ _)
  exact h.1

/-- C3: on every input whose dependency graph over composite declarations
(group inclusion, parent inheritance, nested-struct typedef reference)
contains a cycle, resolution terminates — the model's fuel cut-off, which
strictly dominates the recursion depth of the Rust `bfs`, is never
reached — and at least one recursive-declaration error diagnostic is
emitted. -/
theorem claim_C3_cycle_detected (f : File) :
    (scopeRun f).ctx.fuelOut = false ∧
    (HasCycle f → ∃ e ∈ (scopeRun f).ctx.diags, IsRecursiveDiag e) := by
  refine ⟨scopeRun_fuelOut f, fun hcyc => ?_⟩
  by_contra hno
  push_neg at hno
  have hnr : noRec (scopeRun f).ctx.diags := fun e he => hno e he
  obtain ⟨i, htr⟩ := hcyc
  have hdr := runFinalize_cycle f.declarations
    (buildTypedef f.declarations).1
    ((buildTypedef f.declarations).1.map Prod.snd)
    (initCtx (buildTypedef f.declarations).2) (marksOK_initCtx _ _)
  have hnr' : noRec ((((buildTypedef f.declarations).1.map Prod.snd).foldl
      (fun ctx e => (bfs f.declarations (buildTypedef f.declarations).1
        (f.declarations.length + 1) e ctx).2)
      (initCtx (buildTypedef f.declarations).2)).diags) := hnr
  obtain ⟨hInvF, hall⟩ := hdr.2 hnr' (inv_initCtx _ _ _)
  have hinc : ∃ k, EdgeStep f k i := by
    cases htr with
    | single h => exact ⟨i, h⟩
    | tail h1 h2 => exact ⟨_, h2⟩
  obtain ⟨k, hk⟩ := hinc
  obtain ⟨hitd, hicomp⟩ := edge_target f.declarations
    (buildTypedef f.declarations).1 k i hk
  have himem := hall i hitd hicomp
  have hdesc := inv_descent hInvF htr himem
  exact absurd hdesc.2 (lt_irrefl _)

/-- C3 witness: the two-packet file `A : B`, `B : A` has a dependency
cycle, and its run terminates with a recursive-declaration error. -/
theorem claim_C3_cycle_detected_witness :
    (scopeRun fileCycleAB).ctx.fuelOut = false ∧
    (∃ e ∈ (scopeRun fileCycleAB).ctx.diags, IsRecursiveDiag e) :=
  ⟨(claim_C3_cycle_detected fileCycleAB).1,
    (claim_C3_cycle_detected fileCycleAB).2
      ⟨0, Relation.TransGen.tail
        (Relation.TransGen.single
          (show (1 : Nat) ∈ declEdges fileCycleAB.declarations
            (buildTypedef fileCycleAB.declarations).1 0 from by decide))
        (show (0 : Nat) ∈ declEdges fileCycleAB.declarations
          (buildTypedef fileCycleAB.declarations).1 1 from by decide)⟩⟩

end Pdl
